import Mathlib

/-!
ApexUpJSONFormatter: a shallow embedding of `json_formatter.go`.

The Go file defines one formatter, `ApexUpJSONFormatter`, with the helper
`FieldMap.resolve`, the clash step `prefixFieldClashes` and the method `Format`.

Modelling decisions.

* A Go `map[string]T` is an association list with at most one pair per key
  (`mapGet` reads, `mapSet` writes in place or appends a fresh key).
* `entry.Data` is a Go map whose `range` order is unspecified: the entry carries its
  attributes as the list of pairs in the order in which the loop visits them, so
  "every iteration order" is "every list with the same pairs".
* A dynamically typed value (`interface{}`) is the tagged type `Value`; an error-like
  value carries the text its `Error()` method returns.
* `Format` can end in three ways: it returns bytes and no error, it returns no bytes
  and an error, or the unchecked type assertion on `data["fields"]` panics.
* `json.Marshal`, `time.Time.Format` and `logrus.Level.String` are library calls
  outside the repository and are taken as parameters (`Externals`).
-/

namespace Logrus

/-! ## Values and maps -/

/-- A dynamically typed Go value as it can occur in `entry.Data` and in the document. -/
inductive Value where
  | null : Value
  | bool (b : Bool) : Value
  | num (n : Int) : Value
  | str (s : String) : Value
  | err (msg : String) : Value
  | obj (members : List (String × Value)) : Value
  | arr (items : List Value) : Value
  | func : Value

/-- The Go type `Fields`, `map[string]interface{}`. -/
abbrev Fields := List (String × Value)

/-- Map read `m[k]` with the comma-ok idiom: `none` when the key is absent. -/
def mapGet {α : Type} : List (String × α) → String → Option α
  | [], _ => none
  | (k', v') :: rest, k => if k' = k then some v' else mapGet rest k

/-- Map write `m[k] = v`: replaces the value of an existing key, else adds the key. -/
def mapSet {α : Type} : List (String × α) → String → α → List (String × α)
  | [], k, v => [(k, v)]
  | (k', v') :: rest, k, v =>
    if k' = k then (k, v) :: rest else (k', v') :: mapSet rest k v

/-- The keys of a map. -/
def mapKeys {α : Type} (m : List (String × α)) : List String :=
  m.map Prod.fst

/-- The Go type switch `case error:` of `Format`. -/
def Value.isError : Value → Bool
  | Value.err _ => true
  | _ => false

/-! ## FieldMap -/

/-- The Go type `FieldMap`, `map[fieldKey]string`. -/
abbrev FieldMap := List (String × String)

/-- Default key name of the message role. -/
def FieldKeyMsg : String := "message"

/-- Default key name of the level role. -/
def FieldKeyLevel : String := "level"

/-- Default key name of the time role. -/
def FieldKeyTime : String := "timestamp"

/-- The method `FieldMap.resolve`: the mapped name when the role has an entry, else the
role itself. -/
def FieldMap.resolve (f : FieldMap) (key : String) : String :=
  match mapGet f key with
  | some k => k
  | none => key

/-- The constant `defaultTimestampFormat`, which is `time.RFC3339`. -/
def defaultTimestampFormat : String := "2006-01-02T15:04:05Z07:00"

/-! ## prefixFieldClashes -/

/-- One clash check: `if v, ok := data[key]; ok { data["fields."+key] = v }`. -/
def prefixClash (data : Fields) (key : String) : Fields :=
  match mapGet data key with
  | some v => mapSet data ("fields." ++ key) v
  | none => data

/-- The function `prefixFieldClashes`: the three checks in the order TIME, MESSAGE, LEVEL. -/
def prefixFieldClashes (data : Fields) (fieldMap : FieldMap) : Fields :=
  let data1 := prefixClash data (fieldMap.resolve FieldKeyTime)
  let data2 := prefixClash data1 (fieldMap.resolve FieldKeyMsg)
  prefixClash data2 (fieldMap.resolve FieldKeyLevel)

/-! ## Format -/

/-- The formatter's configuration. -/
structure ApexUpJSONFormatter where
  TimestampFormat : String
  DisableTimestamp : Bool
  FieldMap : FieldMap

/-- The part of `logrus.Entry` that `Format` reads; `Data` is in traversal order. -/
structure Entry where
  Data : List (String × Value)
  Time : Int
  Level : Nat
  Message : String

/-- The library calls made by `Format`. -/
structure Externals where
  /-- The call `json.Marshal`: the bytes, or the text of the error. -/
  marshal : Fields → Except String (List UInt8)
  /-- The call `time.Time.Format`: an instant rendered with a layout. -/
  timeFormat : Int → String → String
  /-- The call `logrus.Level.String`: the text of a level. -/
  levelString : Nat → String

/-- A run-time panic of `Format`. -/
inductive Panic where
  | interfaceConversion : Panic
  deriving DecidableEq

/-- One iteration of the `range entry.Data` loop. -/
def partitionStep (data : Fields) (kv : String × Value) : Except Panic Fields :=
  match kv.2 with
  | Value.err msg => Except.ok (mapSet data kv.1 (Value.str msg))
  | v =>
    match mapGet data "fields" with
    | some (Value.obj fieldsData) =>
      Except.ok (mapSet data "fields" (Value.obj (mapSet fieldsData kv.1 v)))
    | _ => Except.error Panic.interfaceConversion

/-- The `range entry.Data` loop from a given state of `data`. -/
def partitionLoop : Fields → List (String × Value) → Except Panic Fields
  | data, [] => Except.ok data
  | data, kv :: rest =>
    match partitionStep data kv with
    | Except.ok data' => partitionLoop data' rest
    | Except.error p => Except.error p

/-- Lines 72 to 84 of `Format`: the fresh map with its empty `fields` member, then the loop. -/
def partition (entry : Entry) : Except Panic Fields :=
  partitionLoop [("fields", Value.obj [])] entry.Data

/-- The effective layout: `TimestampFormat`, or the default when it is empty. -/
def effectiveTimestampFormat (f : ApexUpJSONFormatter) : String :=
  if f.TimestampFormat = "" then defaultTimestampFormat else f.TimestampFormat

/-- Lines 92 to 96 of `Format`: the writes of the reserved values. -/
def writeReserved (ext : Externals) (f : ApexUpJSONFormatter) (entry : Entry)
    (data : Fields) : Fields :=
  let data1 :=
    if f.DisableTimestamp then data
    else mapSet data (f.FieldMap.resolve FieldKeyTime)
      (Value.str (ext.timeFormat entry.Time (effectiveTimestampFormat f)))
  let data2 := mapSet data1 (f.FieldMap.resolve FieldKeyMsg) (Value.str entry.Message)
  mapSet data2 (f.FieldMap.resolve FieldKeyLevel) (Value.str (ext.levelString entry.Level))

/-- The document handed to `json.Marshal`, or the panic that ends the call before. -/
def buildDocument (ext : Externals) (f : ApexUpJSONFormatter) (entry : Entry) :
    Except Panic Fields :=
  match partition entry with
  | Except.ok data => Except.ok (writeReserved ext f entry (prefixFieldClashes data f.FieldMap))
  | Except.error p => Except.error p

/-- How a call of `Format` ends: the returned pair `([]byte, error)`, or a panic. -/
inductive Outcome where
  | returned (bytes : List UInt8) (err : Option String) : Outcome
  | panicked (p : Panic) : Outcome

/-- The method `ApexUpJSONFormatter.Format`. -/
def Format (ext : Externals) (f : ApexUpJSONFormatter) (entry : Entry) : Outcome :=
  match buildDocument ext f entry with
  | Except.error p => Outcome.panicked p
  | Except.ok data =>
    match ext.marshal data with
    | Except.error cause =>
      Outcome.returned [] (some ("failed to marshal fields to JSON, " ++ cause))
    | Except.ok serialized => Outcome.returned (serialized ++ [10]) none

/-- The attributes that take the `default` branch of the type switch. -/
def nonErrors (l : List (String × Value)) : List (String × Value) :=
  l.filter (fun kv => !kv.2.isError)

/-- The three resolved reserved key names, for TIME, MESSAGE and LEVEL. -/
def resolvedNames (f : ApexUpJSONFormatter) : List String :=
  [f.FieldMap.resolve FieldKeyTime, f.FieldMap.resolve FieldKeyMsg,
    f.FieldMap.resolve FieldKeyLevel]

/-- Lines 87 to 94 of `Format`: the write of the rendered time, unless it is disabled. -/
def writeTimestamp (ext : Externals) (f : ApexUpJSONFormatter) (entry : Entry)
    (data : Fields) : Fields :=
  if f.DisableTimestamp then data
  else mapSet data (f.FieldMap.resolve FieldKeyTime)
    (Value.str (ext.timeFormat entry.Time (effectiveTimestampFormat f)))

/-- The names checked by `prefixFieldClashes`, in the implemented order TIME, MESSAGE,
LEVEL. -/
def clashOrder (fieldMap : FieldMap) : List String :=
  [fieldMap.resolve FieldKeyTime, fieldMap.resolve FieldKeyMsg,
    fieldMap.resolve FieldKeyLevel]

/-- The clash checks of `prefixFieldClashes` performed for the given names, in list order. -/
def prefixClashesInOrder (data : Fields) (names : List String) : Fields :=
  names.foldl prefixClash data

/-- Two association lists are the same Go map: every key reads the same in both. -/
def sameMembers (m1 m2 : Fields) : Prop :=
  ∀ k, mapGet m1 k = mapGet m2 k

/-- Two values are the same Go value: equal, or maps with the same members. -/
def sameValue : Value → Value → Prop
  | Value.obj m1, Value.obj m2 => sameMembers m1 m2
  | v1, v2 => v1 = v2

/-- Two map reads agree: both absent, or both present with the same value. -/
def sameMember : Option Value → Option Value → Prop
  | some v1, some v2 => sameValue v1 v2
  | none, none => True
  | _, _ => False

/-- Two documents are the same Go map: every top-level key reads the same in both, a
sub-document being compared by its members. -/
def sameDocument (d1 d2 : Fields) : Prop :=
  ∀ k, sameMember (mapGet d1 k) (mapGet d2 k)

/-- None of the names is another one of them behind the literal `fields.`. -/
abbrev noPrefixedName (names : List String) : Prop :=
  ∀ a ∈ names, ∀ b ∈ names, a ≠ "fields." ++ b

/-- The top-level keys of `data` when the attribute loop has ended: `fields`, and the keys
of the error-like attributes. -/
def keyAfterLoop (e : Entry) (k : String) : Prop :=
  k = "fields" ∨ ∃ msg, (k, Value.err msg) ∈ e.Data

/-! ## Sample externals and inputs used to evaluate the model -/

/-- A stand-in for `json.Marshal`: it rejects a document whose `fields` sub-document has a
function value as a member, and otherwise returns the two bytes of an empty object. -/
def sampleMarshal (data : Fields) : Except String (List UInt8) :=
  match mapGet data "fields" with
  | some (Value.obj fieldsData) =>
    if fieldsData.any (fun kv => match kv.2 with
      | Value.func => true
      | _ => false)
    then Except.error "json: unsupported type: func()"
    else Except.ok [123, 125]
  | _ => Except.ok [123, 125]

/-- Concrete library calls for evaluating the model. -/
def sampleExt : Externals where
  marshal := sampleMarshal
  timeFormat := fun _ _ => "0001-01-01T00:00:00Z"
  levelString := fun _ => "panic"

/-- The zero-value formatter `&ApexUpJSONFormatter{}`. -/
def defaultFormatter : ApexUpJSONFormatter where
  TimestampFormat := ""
  DisableTimestamp := false
  FieldMap := []

/-- The entry `logrus.WithField(k, v)` of the tests: zero time, zero level, no message. -/
def withField (k : String) (v : Value) : Entry where
  Data := [(k, v)]
  Time := 0
  Level := 0
  Message := ""

/-! ## Lemmas on maps -/

theorem mapGet_mapSet {α : Type} (m : List (String × α)) (k k' : String) (v : α) :
    mapGet (mapSet m k v) k' = if k = k' then some v else mapGet m k' := by
  induction m with
  | nil => simp [mapSet, mapGet]
  | cons p rest ih =>
    obtain ⟨a, b⟩ := p
    by_cases h : a = k
    · subst h
      by_cases h' : a = k' <;> simp [mapSet, mapGet, h']
    · by_cases h' : a = k'
      · subst h'
        have hk : ¬ k = a := fun e => h e.symm
        simp [mapSet, mapGet, h, hk]
      · simp [mapSet, mapGet, h, h', ih]

theorem mapGet_mapSet_self {α : Type} (m : List (String × α)) (k : String) (v : α) :
    mapGet (mapSet m k v) k = some v := by
  simp [mapGet_mapSet]

theorem mapGet_mapSet_ne {α : Type} (m : List (String × α)) {k k' : String} (v : α)
    (h : k ≠ k') : mapGet (mapSet m k v) k' = mapGet m k' := by
  simp [mapGet_mapSet, h]

theorem mem_mapKeys_mapSet {α : Type} (m : List (String × α)) (k k' : String) (v : α) :
    k' ∈ mapKeys (mapSet m k v) ↔ k' = k ∨ k' ∈ mapKeys m := by
  induction m with
  | nil => simp [mapSet, mapKeys]
  | cons p rest ih =>
    obtain ⟨a, b⟩ := p
    by_cases h : a = k
    · subst h
      simp [mapSet, mapKeys]
    · have ih' : k' ∈ List.map Prod.fst (mapSet rest k v) ↔
          k' = k ∨ k' ∈ List.map Prod.fst rest := ih
      simp only [mapSet, h, if_false, mapKeys, List.map_cons, List.mem_cons, ih']
      tauto

theorem mapGet_eq_none_iff {α : Type} (m : List (String × α)) (k : String) :
    mapGet m k = none ↔ k ∉ mapKeys m := by
  induction m with
  | nil => simp [mapGet, mapKeys]
  | cons p rest ih =>
    obtain ⟨a, b⟩ := p
    have ih' : mapGet rest k = none ↔ k ∉ List.map Prod.fst rest := ih
    by_cases h : a = k
    · subst h
      simp [mapGet, mapKeys]
    · have hk : ¬ k = a := fun e => h e.symm
      simp [mapGet, mapKeys, h, hk, ih']

theorem mem_mapKeys_iff {α : Type} (m : List (String × α)) (k : String) :
    k ∈ mapKeys m ↔ ∃ v, mapGet m k = some v := by
  constructor
  · intro h
    cases hg : mapGet m k with
    | none => exact absurd h ((mapGet_eq_none_iff m k).mp hg)
    | some v => exact ⟨v, rfl⟩
  · intro h
    obtain ⟨v, hv⟩ := h
    by_contra hc
    rw [(mapGet_eq_none_iff m k).mpr hc] at hv
    cases hv

theorem mapGet_of_mem_nodup {α : Type} (m : List (String × α)) (k : String) (v : α)
    (hn : (mapKeys m).Nodup) (hm : (k, v) ∈ m) : mapGet m k = some v := by
  induction m with
  | nil => cases hm
  | cons p rest ih =>
    obtain ⟨a, b⟩ := p
    have hn' : a ∉ List.map Prod.fst rest ∧ (List.map Prod.fst rest).Nodup := by
      simpa [mapKeys] using hn
    rcases List.mem_cons.mp hm with h | h
    · cases h
      simp [mapGet]
    · have hak : a ≠ k := by
        intro e
        subst e
        exact hn'.1 (List.mem_map.mpr ⟨(a, v), h, rfl⟩)
      simp only [mapGet, hak, if_false]
      exact ih hn'.2 h

theorem mapSet_of_not_mem {α : Type} (m : List (String × α)) (k : String) (v : α)
    (h : k ∉ mapKeys m) : mapSet m k v = m ++ [(k, v)] := by
  induction m with
  | nil => rfl
  | cons p rest ih =>
    obtain ⟨a, b⟩ := p
    have h' : ¬ k = a ∧ k ∉ List.map Prod.fst rest := by
      simpa [mapKeys] using h
    have hak : ¬ a = k := fun e => h'.1 e.symm
    simp only [mapSet, hak, if_false, List.cons_append]
    rw [ih h'.2]

/-- The literal prefix never yields the bare name `fields`. -/
theorem prefixed_ne_fields (r : String) : "fields." ++ r ≠ "fields" := by
  intro h
  have hl := congrArg String.length h
  rw [String.length_append] at hl
  have h7 : ("fields." : String).length = 7 := by decide
  have h6 : ("fields" : String).length = 6 := by decide
  omega

/-! ## Lemmas on the partition loop -/

theorem partitionStep_err (data : Fields) (k msg : String) :
    partitionStep data (k, Value.err msg) = Except.ok (mapSet data k (Value.str msg)) := rfl

theorem partitionStep_nonErr (data : Fields) (k : String) (v : Value)
    (h : v.isError = false) :
    partitionStep data (k, v) =
      match mapGet data "fields" with
      | some (Value.obj fieldsData) =>
        Except.ok (mapSet data "fields" (Value.obj (mapSet fieldsData k v)))
      | _ => Except.error Panic.interfaceConversion := by
  cases v <;> first | rfl | cases h

theorem isError_iff (v : Value) : v.isError = true ↔ ∃ msg, v = Value.err msg := by
  cases v <;> simp [Value.isError]

theorem partitionStep_frame (data data' : Fields) (kv : String × Value) (k : String)
    (hs : partitionStep data kv = Except.ok data') (hk : kv.1 ≠ k)
    (hf : k ≠ "fields" ∨ ∀ fd, mapGet data "fields" ≠ some (Value.obj fd)) :
    mapGet data' k = mapGet data k := by
  obtain ⟨a, v⟩ := kv
  cases hv : v.isError with
  | true =>
    obtain ⟨msg, rfl⟩ := (isError_iff v).mp hv
    rw [partitionStep_err] at hs
    cases hs
    exact mapGet_mapSet_ne data _ hk
  | false =>
    rw [partitionStep_nonErr data a v hv] at hs
    cases hg : mapGet data "fields" with
    | none => rw [hg] at hs; cases hs
    | some w =>
      rw [hg] at hs
      cases w <;> first | (cases hs; done) | skip
      rename_i fd
      cases hs
      rcases hf with hf | hf
      · exact mapGet_mapSet_ne data _ (Ne.symm hf)
      · exact absurd hg (hf fd)

theorem partitionLoop_frame (rest : List (String × Value)) :
    ∀ (data data' : Fields) (k : String), partitionLoop data rest = Except.ok data' →
      k ∉ mapKeys rest →
      (k ≠ "fields" ∨ ∀ fd, mapGet data "fields" ≠ some (Value.obj fd)) →
      mapGet data' k = mapGet data k := by
  induction rest with
  | nil =>
    intro data data' k h _ _
    cases h
    rfl
  | cons kv rest ih =>
    intro data data' k h hk hf
    have hk' : ¬ k = kv.1 ∧ k ∉ List.map Prod.fst rest := by
      simpa [mapKeys] using hk
    have hne : kv.1 ≠ k := fun e => hk'.1 e.symm
    simp only [partitionLoop] at h
    cases hs : partitionStep data kv with
    | error p => rw [hs] at h; cases h
    | ok data1 =>
      rw [hs] at h
      have h1 : mapGet data1 k = mapGet data k := partitionStep_frame data data1 kv k hs hne hf
      have hf1 : k ≠ "fields" ∨ ∀ fd, mapGet data1 "fields" ≠ some (Value.obj fd) := by
        rcases hf with hf | hf
        · exact Or.inl hf
        · by_cases hkf : k = "fields"
          · subst hkf
            right
            intro fd
            rw [h1]
            exact hf fd
          · exact Or.inl hkf
      rw [ih data1 data' k h hk'.2 hf1, h1]

theorem partitionLoop_err (rest : List (String × Value)) :
    ∀ (data data' : Fields) (k msg : String), partitionLoop data rest = Except.ok data' →
      (mapKeys rest).Nodup → (k, Value.err msg) ∈ rest →
      mapGet data' k = some (Value.str msg) := by
  induction rest with
  | nil =>
    intro data data' k msg _ _ hm
    cases hm
  | cons kv rest ih =>
    intro data data' k msg h hn hm
    have hn' : kv.1 ∉ List.map Prod.fst rest ∧ (List.map Prod.fst rest).Nodup := by
      simpa [mapKeys] using hn
    simp only [partitionLoop] at h
    cases hs : partitionStep data kv with
    | error p => rw [hs] at h; cases h
    | ok data1 =>
      rw [hs] at h
      rcases List.mem_cons.mp hm with hm | hm
      · subst hm
        rw [partitionStep_err] at hs
        cases hs
        have hf1 : k ≠ "fields" ∨
            ∀ fd, mapGet (mapSet data k (Value.str msg)) "fields" ≠ some (Value.obj fd) := by
          by_cases hkf : k = "fields"
          · subst hkf
            right
            intro fd
            rw [mapGet_mapSet_self]
            intro e
            cases e
          · exact Or.inl hkf
        rw [partitionLoop_frame rest _ data' k h hn'.1 hf1, mapGet_mapSet_self]
      · exact ih data1 data' k msg h hn'.2 hm

theorem partitionLoop_fields (rest : List (String × Value)) :
    ∀ (data fd : Fields), mapGet data "fields" = some (Value.obj fd) →
      (∀ kv ∈ rest, kv.2.isError = true → kv.1 ≠ "fields") →
      ∃ data', partitionLoop data rest = Except.ok data' ∧
        mapGet data' "fields" =
          some (Value.obj ((nonErrors rest).foldl (fun m kv => mapSet m kv.1 kv.2) fd)) := by
  induction rest with
  | nil =>
    intro data fd hf _
    exact ⟨data, rfl, hf⟩
  | cons kv rest ih =>
    intro data fd hf hne
    obtain ⟨a, v⟩ := kv
    have hne' : ∀ kv ∈ rest, kv.2.isError = true → kv.1 ≠ "fields" :=
      fun kv hkv => hne kv (List.mem_cons_of_mem _ hkv)
    cases hv : v.isError with
    | true =>
      obtain ⟨msg, rfl⟩ := (isError_iff v).mp hv
      have ha : a ≠ "fields" := hne (a, Value.err msg) (List.mem_cons_self _ _) hv
      have hf1 : mapGet (mapSet data a (Value.str msg)) "fields" = some (Value.obj fd) := by
        rw [mapGet_mapSet_ne data _ ha]
        exact hf
      obtain ⟨data', h1, h2⟩ := ih _ fd hf1 hne'
      refine ⟨data', ?_, ?_⟩
      · simp only [partitionLoop, partitionStep_err]
        exact h1
      · simpa [nonErrors, List.filter, Value.isError] using h2
    | false =>
      have hstep : partitionStep data (a, v) =
          Except.ok (mapSet data "fields" (Value.obj (mapSet fd a v))) := by
        rw [partitionStep_nonErr data a v hv, hf]
      obtain ⟨data', h1, h2⟩ := ih _ (mapSet fd a v) (mapGet_mapSet_self data _ _) hne'
      refine ⟨data', ?_, ?_⟩
      · simp only [partitionLoop, hstep]
        exact h1
      · simpa [nonErrors, List.filter, hv] using h2

theorem foldl_mapSet_nodup (l : List (String × Value)) :
    ∀ fd : Fields, (mapKeys (fd ++ l)).Nodup →
      l.foldl (fun m kv => mapSet m kv.1 kv.2) fd = fd ++ l := by
  induction l with
  | nil =>
    intro fd _
    simp
  | cons kv l ih =>
    intro fd hn
    have hnot : kv.1 ∉ mapKeys fd := by
      intro hmem
      have hn' : (List.map Prod.fst fd ++ kv.1 :: List.map Prod.fst l).Nodup := by
        simpa [mapKeys] using hn
      exact (List.nodup_append.mp hn').2.2 hmem (List.mem_cons_self _ _)
    have hassoc : fd ++ kv :: l = (fd ++ [kv]) ++ l := by simp
    simp only [List.foldl_cons]
    obtain ⟨a, v⟩ := kv
    rw [mapSet_of_not_mem fd a v hnot, hassoc]
    apply ih
    rw [← hassoc]
    exact hn

theorem nonErrors_nodup (l : List (String × Value)) (hn : (mapKeys l).Nodup) :
    (mapKeys (nonErrors l)).Nodup :=
  List.Nodup.sublist (List.Sublist.map Prod.fst (List.filter_sublist l)) hn

theorem mem_nonErrors (l : List (String × Value)) (k : String) (v : Value) :
    (k, v) ∈ nonErrors l ↔ (k, v) ∈ l ∧ v.isError = false := by
  simp [nonErrors, List.mem_filter]

theorem partitionLoop_keys (rest : List (String × Value)) :
    ∀ (data data' : Fields), partitionLoop data rest = Except.ok data' →
      "fields" ∈ mapKeys data →
      ∀ k, k ∈ mapKeys data' ↔ k ∈ mapKeys data ∨ ∃ msg, (k, Value.err msg) ∈ rest := by
  induction rest with
  | nil =>
    intro data data' h _ k
    cases h
    simp
  | cons kv rest ih =>
    intro data data' h hf k
    obtain ⟨a, v⟩ := kv
    simp only [partitionLoop] at h
    cases hs : partitionStep data (a, v) with
    | error p => rw [hs] at h; cases h
    | ok data1 =>
      rw [hs] at h
      cases hv : v.isError with
      | true =>
        obtain ⟨msg, rfl⟩ := (isError_iff v).mp hv
        rw [partitionStep_err] at hs
        cases hs
        have hf1 : "fields" ∈ mapKeys (mapSet data a (Value.str msg)) :=
          (mem_mapKeys_mapSet data a "fields" _).mpr (Or.inr hf)
        rw [ih _ data' h hf1 k, mem_mapKeys_mapSet]
        constructor
        · rintro ((h1 | h1) | ⟨m, h1⟩)
          · exact Or.inr ⟨msg, by rw [h1]; exact List.mem_cons_self _ _⟩
          · exact Or.inl h1
          · exact Or.inr ⟨m, List.mem_cons_of_mem _ h1⟩
        · rintro (h1 | ⟨m, h1⟩)
          · exact Or.inl (Or.inr h1)
          · rcases List.mem_cons.mp h1 with h2 | h2
            · cases h2
              exact Or.inl (Or.inl rfl)
            · exact Or.inr ⟨m, h2⟩
      | false =>
        rw [partitionStep_nonErr data a v hv] at hs
        cases hg : mapGet data "fields" with
        | none => rw [hg] at hs; cases hs
        | some w =>
          rw [hg] at hs
          cases w <;> first | (cases hs; done) | skip
          rename_i fd
          cases hs
          have hf1 : "fields" ∈ mapKeys (mapSet data "fields" (Value.obj (mapSet fd a v))) :=
            (mem_mapKeys_mapSet data "fields" "fields" _).mpr (Or.inl rfl)
          rw [ih _ data' h hf1 k, mem_mapKeys_mapSet]
          constructor
          · rintro ((h1 | h1) | ⟨m, h1⟩)
            · exact Or.inl (by rw [h1]; exact hf)
            · exact Or.inl h1
            · exact Or.inr ⟨m, List.mem_cons_of_mem _ h1⟩
          · rintro (h1 | ⟨m, h1⟩)
            · exact Or.inl (Or.inr h1)
            · rcases List.mem_cons.mp h1 with h2 | h2
              · cases h2
                cases hv
              · exact Or.inr ⟨m, h2⟩

/-! ## Lemmas on the clash step and on the reserved writes -/

theorem mapGet_prefixClash_ne (data : Fields) (r k : String) (h : k ≠ "fields." ++ r) :
    mapGet (prefixClash data r) k = mapGet data k := by
  unfold prefixClash
  cases hg : mapGet data r with
  | none => rfl
  | some v => exact mapGet_mapSet_ne data v (Ne.symm h)

theorem mem_mapKeys_prefixClash (data : Fields) (r k : String) :
    k ∈ mapKeys (prefixClash data r) ↔
      k ∈ mapKeys data ∨ (k = "fields." ++ r ∧ r ∈ mapKeys data) := by
  unfold prefixClash
  cases hg : mapGet data r with
  | none =>
    have hr : r ∉ mapKeys data := (mapGet_eq_none_iff data r).mp hg
    simp [hr]
  | some v =>
    have hr : r ∈ mapKeys data := (mem_mapKeys_iff data r).mpr ⟨v, hg⟩
    simp only [mem_mapKeys_mapSet, hr, and_true]
    tauto

theorem mapGet_prefixFieldClashes_ne (data : Fields) (fm : FieldMap) (k : String)
    (ht : k ≠ "fields." ++ fm.resolve FieldKeyTime)
    (hm : k ≠ "fields." ++ fm.resolve FieldKeyMsg)
    (hl : k ≠ "fields." ++ fm.resolve FieldKeyLevel) :
    mapGet (prefixFieldClashes data fm) k = mapGet data k := by
  simp only [prefixFieldClashes]
  rw [mapGet_prefixClash_ne _ _ _ hl, mapGet_prefixClash_ne _ _ _ hm,
    mapGet_prefixClash_ne _ _ _ ht]

theorem mapKeys_subset_prefixFieldClashes (data : Fields) (fm : FieldMap) (k : String)
    (h : k ∈ mapKeys data) : k ∈ mapKeys (prefixFieldClashes data fm) := by
  simp only [prefixFieldClashes, mem_mapKeys_prefixClash]
  exact Or.inl (Or.inl (Or.inl h))

theorem mem_mapKeys_prefixFieldClashes (data : Fields) (fm : FieldMap) (k : String)
    (h : k ∈ mapKeys (prefixFieldClashes data fm)) :
    k ∈ mapKeys data ∨ k = "fields." ++ fm.resolve FieldKeyTime ∨
      k = "fields." ++ fm.resolve FieldKeyMsg ∨ k = "fields." ++ fm.resolve FieldKeyLevel := by
  simp only [prefixFieldClashes, mem_mapKeys_prefixClash] at h
  tauto

theorem mapGet_writeReserved_level (ext : Externals) (f : ApexUpJSONFormatter) (e : Entry)
    (data : Fields) :
    mapGet (writeReserved ext f e data) (f.FieldMap.resolve FieldKeyLevel) =
      some (Value.str (ext.levelString e.Level)) := by
  simp only [writeReserved]
  exact mapGet_mapSet_self _ _ _

theorem mapGet_writeReserved_msg (ext : Externals) (f : ApexUpJSONFormatter) (e : Entry)
    (data : Fields) (h : f.FieldMap.resolve FieldKeyMsg ≠ f.FieldMap.resolve FieldKeyLevel) :
    mapGet (writeReserved ext f e data) (f.FieldMap.resolve FieldKeyMsg) =
      some (Value.str e.Message) := by
  simp only [writeReserved]
  rw [mapGet_mapSet_ne _ _ (Ne.symm h)]
  exact mapGet_mapSet_self _ _ _

theorem mapGet_writeReserved_time (ext : Externals) (f : ApexUpJSONFormatter) (e : Entry)
    (data : Fields) (hd : f.DisableTimestamp = false)
    (h1 : f.FieldMap.resolve FieldKeyTime ≠ f.FieldMap.resolve FieldKeyMsg)
    (h2 : f.FieldMap.resolve FieldKeyTime ≠ f.FieldMap.resolve FieldKeyLevel) :
    mapGet (writeReserved ext f e data) (f.FieldMap.resolve FieldKeyTime) =
      some (Value.str (ext.timeFormat e.Time (effectiveTimestampFormat f))) := by
  simp only [writeReserved, hd]
  rw [mapGet_mapSet_ne _ _ (Ne.symm h2), mapGet_mapSet_ne _ _ (Ne.symm h1)]
  exact mapGet_mapSet_self _ _ _

theorem mapGet_writeReserved_frame (ext : Externals) (f : ApexUpJSONFormatter) (e : Entry)
    (data : Fields) (k : String)
    (ht : f.DisableTimestamp = true ∨ k ≠ f.FieldMap.resolve FieldKeyTime)
    (hm : k ≠ f.FieldMap.resolve FieldKeyMsg)
    (hl : k ≠ f.FieldMap.resolve FieldKeyLevel) :
    mapGet (writeReserved ext f e data) k = mapGet data k := by
  simp only [writeReserved]
  rw [mapGet_mapSet_ne _ _ (Ne.symm hl), mapGet_mapSet_ne _ _ (Ne.symm hm)]
  cases hd : f.DisableTimestamp with
  | true => simp
  | false =>
    rcases ht with ht | ht
    · rw [hd] at ht
      cases ht
    · simp only [Bool.false_eq_true, if_false]
      exact mapGet_mapSet_ne _ _ (Ne.symm ht)

theorem mem_mapKeys_writeReserved (ext : Externals) (f : ApexUpJSONFormatter) (e : Entry)
    (data : Fields) (k : String) :
    k ∈ mapKeys (writeReserved ext f e data) ↔
      k ∈ mapKeys data ∨ k = f.FieldMap.resolve FieldKeyMsg ∨
        k = f.FieldMap.resolve FieldKeyLevel ∨
        (f.DisableTimestamp = false ∧ k = f.FieldMap.resolve FieldKeyTime) := by
  simp only [writeReserved]
  cases hd : f.DisableTimestamp with
  | true =>
    simp only [if_true, mem_mapKeys_mapSet]
    simp
    tauto
  | false =>
    simp only [Bool.false_eq_true, if_false, mem_mapKeys_mapSet]
    simp
    tauto

theorem buildDocument_eq (ext : Externals) (f : ApexUpJSONFormatter) (e : Entry)
    (doc : Fields) (h : buildDocument ext f e = Except.ok doc) :
    ∃ data, partition e = Except.ok data ∧
      doc = writeReserved ext f e (prefixFieldClashes data f.FieldMap) := by
  unfold buildDocument at h
  cases hp : partition e with
  | error p => rw [hp] at h; cases h
  | ok data =>
    rw [hp] at h
    cases h
    exact ⟨data, rfl, rfl⟩

theorem mem_of_mapGet {α : Type} (m : List (String × α)) (k : String) (v : α)
    (h : mapGet m k = some v) : (k, v) ∈ m := by
  induction m with
  | nil => cases h
  | cons p rest ih =>
    obtain ⟨a, b⟩ := p
    by_cases hak : a = k
    · subst hak
      simp only [mapGet, if_true] at h
      cases h
      exact List.mem_cons_self _ _
    · simp only [mapGet, hak, if_false] at h
      exact List.mem_cons_of_mem _ (ih h)

theorem mem_resolvedNames (f : ApexUpJSONFormatter) (r : String) :
    r ∈ resolvedNames f ↔ r = f.FieldMap.resolve FieldKeyTime ∨
      r = f.FieldMap.resolve FieldKeyMsg ∨ r = f.FieldMap.resolve FieldKeyLevel := by
  simp [resolvedNames]

theorem resolvedNames_nodup (f : ApexUpJSONFormatter) (h : (resolvedNames f).Nodup) :
    f.FieldMap.resolve FieldKeyTime ≠ f.FieldMap.resolve FieldKeyMsg ∧
      f.FieldMap.resolve FieldKeyTime ≠ f.FieldMap.resolve FieldKeyLevel ∧
      f.FieldMap.resolve FieldKeyMsg ≠ f.FieldMap.resolve FieldKeyLevel := by
  simp only [resolvedNames, List.nodup_cons, List.mem_cons, List.mem_singleton,
    List.not_mem_nil, not_or, List.nodup_nil, or_false, not_false_eq_true, and_true] at h
  exact ⟨h.1.1, h.1.2, h.2⟩

/-- When no error-like attribute is named `fields`, the loop ends normally and the
`fields` member holds exactly the non-error attributes. -/
theorem partition_fields (e : Entry) (hn : (mapKeys e.Data).Nodup)
    (hne : ∀ kv ∈ e.Data, kv.2.isError = true → kv.1 ≠ "fields") :
    ∃ data, partition e = Except.ok data ∧
      mapGet data "fields" = some (Value.obj (nonErrors e.Data)) := by
  obtain ⟨data, h1, h2⟩ :=
    partitionLoop_fields e.Data [("fields", Value.obj [])] [] rfl hne
  refine ⟨data, h1, ?_⟩
  rw [h2, foldl_mapSet_nodup (nonErrors e.Data) [] (by simpa using nonErrors_nodup e.Data hn)]
  simp

/-- With no role named `fields` the later steps leave the `fields` member alone. -/
theorem mapGet_finish_fields (ext : Externals) (f : ApexUpJSONFormatter) (e : Entry)
    (data : Fields) (hnf : "fields" ∉ resolvedNames f) :
    mapGet (writeReserved ext f e (prefixFieldClashes data f.FieldMap)) "fields" =
      mapGet data "fields" := by
  have h := (mem_resolvedNames f "fields").not.mp hnf
  simp only [not_or] at h
  rw [mapGet_writeReserved_frame ext f e _ "fields" (Or.inr h.1) h.2.1 h.2.2]
  exact mapGet_prefixFieldClashes_ne data f.FieldMap "fields"
    (Ne.symm (prefixed_ne_fields _)) (Ne.symm (prefixed_ne_fields _))
    (Ne.symm (prefixed_ne_fields _))

theorem buildDocument_fields (ext : Externals) (f : ApexUpJSONFormatter) (e : Entry)
    (hnf : "fields" ∉ resolvedNames f) (hn : (mapKeys e.Data).Nodup)
    (hne : ∀ kv ∈ e.Data, kv.2.isError = true → kv.1 ≠ "fields") :
    ∃ doc, buildDocument ext f e = Except.ok doc ∧
      mapGet doc "fields" = some (Value.obj (nonErrors e.Data)) := by
  obtain ⟨data, h1, h2⟩ := partition_fields e hn hne
  refine ⟨writeReserved ext f e (prefixFieldClashes data f.FieldMap), ?_, ?_⟩
  · simp only [buildDocument, h1]
  · rw [mapGet_finish_fields ext f e data hnf, h2]

theorem partitionLoop_fields_not_obj (rest : List (String × Value)) :
    ∀ (data data' : Fields), partitionLoop data rest = Except.ok data' →
      (∀ fd, mapGet data "fields" ≠ some (Value.obj fd)) →
      ∀ fd, mapGet data' "fields" ≠ some (Value.obj fd) := by
  induction rest with
  | nil =>
    intro data data' h hf
    cases h
    exact hf
  | cons kv rest ih =>
    intro data data' h hf
    obtain ⟨a, v⟩ := kv
    simp only [partitionLoop] at h
    cases hs : partitionStep data (a, v) with
    | error p => rw [hs] at h; cases h
    | ok data1 =>
      rw [hs] at h
      apply ih data1 data' h
      cases hv : v.isError with
      | true =>
        obtain ⟨msg, rfl⟩ := (isError_iff v).mp hv
        rw [partitionStep_err] at hs
        cases hs
        intro fd
        rw [mapGet_mapSet]
        by_cases ha : a = "fields"
        · simp [ha]
        · simp only [ha, if_false]
          exact hf fd
      | false =>
        rw [partitionStep_nonErr data a v hv] at hs
        cases hg : mapGet data "fields" with
        | none => rw [hg] at hs; cases hs
        | some w =>
          rw [hg] at hs
          cases w <;> first | (cases hs; done) | skip
          rename_i fd0
          exact absurd hg (hf fd0)

theorem partitionLoop_fields_obj (rest : List (String × Value)) :
    ∀ (data data' fd0 fd : Fields), partitionLoop data rest = Except.ok data' →
      mapGet data "fields" = some (Value.obj fd0) →
      mapGet data' "fields" = some (Value.obj fd) →
      fd = (nonErrors rest).foldl (fun m kv => mapSet m kv.1 kv.2) fd0 := by
  induction rest with
  | nil =>
    intro data data' fd0 fd h h0 h1
    cases h
    rw [h0] at h1
    cases h1
    rfl
  | cons kv rest ih =>
    intro data data' fd0 fd h h0 h1
    obtain ⟨a, v⟩ := kv
    simp only [partitionLoop] at h
    cases hs : partitionStep data (a, v) with
    | error p => rw [hs] at h; cases h
    | ok data1 =>
      rw [hs] at h
      cases hv : v.isError with
      | true =>
        obtain ⟨msg, rfl⟩ := (isError_iff v).mp hv
        rw [partitionStep_err] at hs
        cases hs
        have hfil : nonErrors ((a, Value.err msg) :: rest) = nonErrors rest := by
          simp [nonErrors, List.filter, Value.isError]
        rw [hfil]
        by_cases ha : a = "fields"
        · subst ha
          exact absurd h1 (partitionLoop_fields_not_obj rest _ data' h
            (by intro fd'; rw [mapGet_mapSet_self]; intro e; cases e) fd)
        · exact ih _ data' fd0 fd h (by rw [mapGet_mapSet_ne data _ ha]; exact h0) h1
      | false =>
        rw [partitionStep_nonErr data a v hv, h0] at hs
        cases hs
        have hfil : nonErrors ((a, v) :: rest) = (a, v) :: nonErrors rest := by
          simp [nonErrors, List.filter, hv]
        rw [hfil]
        exact ih _ data' (mapSet fd0 a v) fd h (mapGet_mapSet_self data _ _) h1

theorem mapGet_writeReserved_obj (ext : Externals) (f : ApexUpJSONFormatter) (e : Entry)
    (data fd : Fields) (k : String)
    (h : mapGet (writeReserved ext f e data) k = some (Value.obj fd)) :
    mapGet data k = some (Value.obj fd) := by
  simp only [writeReserved, mapGet_mapSet] at h
  split at h
  · cases h
  · split at h
    · cases h
    · cases hd : f.DisableTimestamp with
      | true => simpa [hd] using h
      | false =>
        simp only [hd, Bool.false_eq_true, if_false, mapGet_mapSet] at h
        split at h
        · cases h
        · exact h

/-- The value an error-like attribute leaves at top level survives the later steps when
its key is neither a resolved name nor a prefixed resolved name. -/
theorem mapGet_finish_plain (ext : Externals) (f : ApexUpJSONFormatter) (e : Entry)
    (data : Fields) (k : String) (hk : k ∉ resolvedNames f)
    (hpre : ∀ r ∈ resolvedNames f, k ≠ "fields." ++ r) :
    mapGet (writeReserved ext f e (prefixFieldClashes data f.FieldMap)) k = mapGet data k := by
  have h := (mem_resolvedNames f k).not.mp hk
  simp only [not_or] at h
  rw [mapGet_writeReserved_frame ext f e _ k (Or.inr h.1) h.2.1 h.2.2]
  exact mapGet_prefixFieldClashes_ne data f.FieldMap k
    (hpre _ ((mem_resolvedNames f _).mpr (Or.inl rfl)))
    (hpre _ ((mem_resolvedNames f _).mpr (Or.inr (Or.inl rfl))))
    (hpre _ ((mem_resolvedNames f _).mpr (Or.inr (Or.inr rfl))))

theorem prefixed_mem_prefixFieldClashes (data : Fields) (fm : FieldMap) (r : String)
    (hr : r = fm.resolve FieldKeyTime ∨ r = fm.resolve FieldKeyMsg ∨
      r = fm.resolve FieldKeyLevel)
    (h : r ∈ mapKeys data) : "fields." ++ r ∈ mapKeys (prefixFieldClashes data fm) := by
  simp only [prefixFieldClashes, mem_mapKeys_prefixClash]
  rcases hr with hr | hr | hr <;> rw [hr] at h ⊢ <;> tauto

theorem mem_mapKeys_partition (e : Entry) (data : Fields)
    (hp : partition e = Except.ok data) (k : String) :
    k ∈ mapKeys data ↔ k = "fields" ∨ ∃ msg, (k, Value.err msg) ∈ e.Data := by
  rw [partitionLoop_keys e.Data [("fields", Value.obj [])] data hp (by simp [mapKeys]) k]
  simp [mapKeys]

/-! ## Lemmas on the order of the clash checks -/

theorem prefixed_injective (a b : String) (h : "fields." ++ a = "fields." ++ b) : a = b := by
  have h1 := congrArg String.data h
  simp only [String.data_append, List.append_cancel_left_eq] at h1
  exact String.ext h1

theorem mapGet_prefixClash (d : Fields) (r k : String) :
    mapGet (prefixClash d r) k =
      match mapGet d r with
      | some v => if "fields." ++ r = k then some v else mapGet d k
      | none => mapGet d k := by
  unfold prefixClash
  cases hg : mapGet d r with
  | none => rfl
  | some v => exact mapGet_mapSet d _ k v

theorem prefixClash_of_absent (d : Fields) (r : String) (h : mapGet d r = none) :
    prefixClash d r = d := by
  simp only [prefixClash, h]

theorem mapGet_prefixClash_self (d : Fields) (r : String) (v : Value)
    (h : mapGet d r = some v) : mapGet (prefixClash d r) ("fields." ++ r) = some v := by
  simp only [prefixClash, h]
  exact mapGet_mapSet_self d _ v

theorem mapGet_prefixClash_changed (d : Fields) (r k : String)
    (h : mapGet (prefixClash d r) k ≠ mapGet d k) : k = "fields." ++ r ∧ r ∈ mapKeys d := by
  cases hg : mapGet d r with
  | none =>
    rw [prefixClash_of_absent d r hg] at h
    exact absurd rfl h
  | some v =>
    refine ⟨?_, (mem_mapKeys_iff d r).mpr ⟨v, hg⟩⟩
    by_contra hk
    exact h (mapGet_prefixClash_ne d r k hk)

theorem sameMembers_refl (d : Fields) : sameMembers d d :=
  fun _ => rfl

theorem sameMembers_trans {d1 d2 d3 : Fields} (h1 : sameMembers d1 d2)
    (h2 : sameMembers d2 d3) : sameMembers d1 d3 :=
  fun k => (h1 k).trans (h2 k)

theorem prefixClash_congr {d d' : Fields} (r : String) (h : sameMembers d d') :
    sameMembers (prefixClash d r) (prefixClash d' r) := by
  intro k
  rw [mapGet_prefixClash, mapGet_prefixClash, h r, h k]

theorem prefixClash_comm (d : Fields) (a b : String) (hab : a ≠ b)
    (h1 : a ≠ "fields." ++ b) (h2 : b ≠ "fields." ++ a) :
    sameMembers (prefixClash (prefixClash d a) b) (prefixClash (prefixClash d b) a) := by
  intro k
  have ha : mapGet (prefixClash d b) a = mapGet d a := mapGet_prefixClash_ne d b a h1
  have hb : mapGet (prefixClash d a) b = mapGet d b := mapGet_prefixClash_ne d a b h2
  rw [mapGet_prefixClash (prefixClash d a) b k, mapGet_prefixClash (prefixClash d b) a k,
    ha, hb, mapGet_prefixClash d a k, mapGet_prefixClash d b k]
  cases mapGet d a with
  | none => rfl
  | some v =>
    cases mapGet d b with
    | none => rfl
    | some w =>
      by_cases hka : "fields." ++ a = k
      · by_cases hkb : "fields." ++ b = k
        · exact absurd (prefixed_injective a b (hka.trans hkb.symm)) hab
        · simp [hka, hkb]
      · by_cases hkb : "fields." ++ b = k
        · simp [hka, hkb]
        · simp [hka, hkb]

theorem prefixClashesInOrder_cons (d : Fields) (r : String) (l : List String) :
    prefixClashesInOrder d (r :: l) = prefixClashesInOrder (prefixClash d r) l := rfl

theorem prefixClashesInOrder_congr (l : List String) :
    ∀ d d' : Fields, sameMembers d d' →
      sameMembers (prefixClashesInOrder d l) (prefixClashesInOrder d' l) := by
  induction l with
  | nil =>
    intro d d' h
    exact h
  | cons r l ih =>
    intro d d' h
    rw [prefixClashesInOrder_cons, prefixClashesInOrder_cons]
    exact ih _ _ (prefixClash_congr r h)

theorem noPrefixedName_tail {r : String} {l : List String} (h : noPrefixedName (r :: l)) :
    noPrefixedName l :=
  fun a ha b hb => h a (List.mem_cons_of_mem _ ha) b (List.mem_cons_of_mem _ hb)

theorem noPrefixedName_perm {l1 l2 : List String} (hp : l1.Perm l2)
    (h : noPrefixedName l1) : noPrefixedName l2 :=
  fun a ha b hb => h a (hp.mem_iff.mpr ha) b (hp.mem_iff.mpr hb)

theorem prefixClashesInOrder_perm {l1 l2 : List String} (hp : l1.Perm l2) :
    l1.Nodup → noPrefixedName l1 → ∀ d d' : Fields, sameMembers d d' →
      sameMembers (prefixClashesInOrder d l1) (prefixClashesInOrder d' l2) := by
  induction hp with
  | nil =>
    intro _ _ d d' h
    exact h
  | cons x _ ih =>
    intro hn hpre d d' h
    rw [prefixClashesInOrder_cons, prefixClashesInOrder_cons]
    exact ih (List.nodup_cons.mp hn).2 (noPrefixedName_tail hpre) _ _ (prefixClash_congr x h)
  | swap x y l =>
    intro hn hpre d d' h
    rw [prefixClashesInOrder_cons, prefixClashesInOrder_cons, prefixClashesInOrder_cons,
      prefixClashesInOrder_cons]
    apply prefixClashesInOrder_congr l
    have hyx : y ≠ x := by
      intro e
      have hmem := (List.nodup_cons.mp hn).1
      exact hmem (by rw [e]; exact List.mem_cons_self _ _)
    have hy : y ∈ y :: x :: l := List.mem_cons_self _ _
    have hx : x ∈ y :: x :: l := List.mem_cons_of_mem _ (List.mem_cons_self _ _)
    exact sameMembers_trans (prefixClash_comm d y x hyx (hpre y hy x hx) (hpre x hx y hy))
      (prefixClash_congr y (prefixClash_congr x h))
  | trans hp1 _ ih1 ih2 =>
    intro hn hpre d d' h
    exact sameMembers_trans (ih1 hn hpre d d (sameMembers_refl d))
      (ih2 (hp1.nodup_iff.mp hn) (noPrefixedName_perm hp1 hpre) d d' h)

theorem prefixFieldClashes_eq_inOrder (data : Fields) (fm : FieldMap) :
    prefixFieldClashes data fm = prefixClashesInOrder data (clashOrder fm) := rfl

theorem prefixClashesInOrder_prefixed (r : String) (v : Value) (l : List String) :
    ∀ d : Fields, (∀ r' ∈ l, r ≠ "fields." ++ r') → mapGet d r = some v →
      (mapGet d ("fields." ++ r) = some v ∨ r ∈ l) →
      mapGet (prefixClashesInOrder d l) r = some v ∧
        mapGet (prefixClashesInOrder d l) ("fields." ++ r) = some v := by
  induction l with
  | nil =>
    intro d _ hv hq
    rcases hq with hq | hq
    · exact ⟨hv, hq⟩
    · cases hq
  | cons r' l ih =>
    intro d hpre hv hq
    rw [prefixClashesInOrder_cons]
    have hv' : mapGet (prefixClash d r') r = some v := by
      rw [mapGet_prefixClash_ne d r' r (hpre r' (List.mem_cons_self _ _))]
      exact hv
    apply ih _ (fun a ha => hpre a (List.mem_cons_of_mem _ ha)) hv'
    by_cases hrr : r' = r
    · subst hrr
      exact Or.inl (mapGet_prefixClash_self d _ v hv)
    · rcases hq with hq | hq
      · left
        rw [mapGet_prefixClash_ne d r' _
          (fun e => hrr (prefixed_injective r r' e).symm)]
        exact hq
      · rcases List.mem_cons.mp hq with h | h
        · exact absurd h.symm hrr
        · exact Or.inr h

/-- A name that is present and is not itself a prefixed name keeps its value and gets a
prefixed copy. -/
theorem mapGet_prefixFieldClashes_prefixed (data : Fields) (fm : FieldMap) (r : String)
    (v : Value) (hr : r ∈ clashOrder fm) (hv : mapGet data r = some v)
    (hpre : ∀ r' ∈ clashOrder fm, r ≠ "fields." ++ r') :
    mapGet (prefixFieldClashes data fm) r = some v ∧
      mapGet (prefixFieldClashes data fm) ("fields." ++ r) = some v := by
  rw [prefixFieldClashes_eq_inOrder]
  exact prefixClashesInOrder_prefixed r v (clashOrder fm) data hpre hv (Or.inr hr)

theorem prefixClashesInOrder_of_absent (k : String) (l : List String) :
    ∀ d : Fields, noPrefixedName l → (∀ r ∈ l, k = "fields." ++ r → mapGet d r = none) →
      mapGet (prefixClashesInOrder d l) k = mapGet d k := by
  induction l with
  | nil =>
    intro d _ _
    rfl
  | cons r' l ih =>
    intro d hpre habs
    rw [prefixClashesInOrder_cons]
    have hstep : mapGet (prefixClash d r') k = mapGet d k := by
      by_cases hk : k = "fields." ++ r'
      · rw [prefixClash_of_absent d r' (habs r' (List.mem_cons_self _ _) hk)]
      · exact mapGet_prefixClash_ne d r' k hk
    rw [ih _ (noPrefixedName_tail hpre) ?_, hstep]
    intro r hr hk
    rw [mapGet_prefixClash_ne d r' r
      (hpre r (List.mem_cons_of_mem _ hr) r' (List.mem_cons_self _ _))]
    exact habs r (List.mem_cons_of_mem _ hr) hk

theorem mem_clashOrder (fm : FieldMap) (r : String) :
    r ∈ clashOrder fm ↔ r = fm.resolve FieldKeyTime ∨ r = fm.resolve FieldKeyMsg ∨
      r = fm.resolve FieldKeyLevel := by
  simp [clashOrder]

theorem resolvedNames_eq_clashOrder (f : ApexUpJSONFormatter) :
    resolvedNames f = clashOrder f.FieldMap := rfl

/-- After the loop a top-level key other than `fields` is absent unless it is the key of an
error-like attribute. -/
theorem mapGet_partition_none (e : Entry) (data : Fields)
    (hp : partition e = Except.ok data) (k : String) (hk : k ≠ "fields")
    (herr : ∀ msg, (k, Value.err msg) ∉ e.Data) : mapGet data k = none := by
  rw [mapGet_eq_none_iff, mem_mapKeys_partition e data hp k]
  rintro (h | ⟨msg, h⟩)
  · exact hk h
  · exact herr msg h

/-- The copy of a present, unprefixed resolved name survives the reserved writes when the
prefixed name is not itself a resolved name. -/
theorem mapGet_finish_prefixed (ext : Externals) (f : ApexUpJSONFormatter) (e : Entry)
    (data : Fields) (r : String) (v : Value) (hr : r ∈ resolvedNames f)
    (hv : mapGet data r = some v) (hpre : ∀ r' ∈ resolvedNames f, r ≠ "fields." ++ r')
    (hnot : "fields." ++ r ∉ resolvedNames f) :
    mapGet (writeReserved ext f e (prefixFieldClashes data f.FieldMap)) ("fields." ++ r) =
      some v := by
  have h := (mem_resolvedNames f ("fields." ++ r)).not.mp hnot
  simp only [not_or] at h
  rw [mapGet_writeReserved_frame ext f e _ _ (Or.inr h.1) h.2.1 h.2.2]
  exact (mapGet_prefixFieldClashes_prefixed data f.FieldMap r v hr hv hpre).2

/-! ## Lemmas on the traversal order -/

theorem mapGet_perm {l1 l2 : List (String × Value)} (hp : l1.Perm l2)
    (hn : (mapKeys l1).Nodup) (k : String) : mapGet l1 k = mapGet l2 k := by
  have hn2 : (mapKeys l2).Nodup := (hp.map Prod.fst).nodup_iff.mp hn
  cases hg : mapGet l1 k with
  | none =>
    have h1 : k ∉ mapKeys l1 := (mapGet_eq_none_iff l1 k).mp hg
    have h2 : k ∉ mapKeys l2 := fun h => h1 ((hp.map Prod.fst).mem_iff.mpr h)
    exact ((mapGet_eq_none_iff l2 k).mpr h2).symm
  | some v =>
    exact (mapGet_of_mem_nodup l2 k v hn2 (hp.mem_iff.mp (mem_of_mapGet l1 k v hg))).symm

theorem sameValue_refl (v : Value) : sameValue v v := by
  cases v <;> first | rfl | exact sameMembers_refl _

theorem sameMember_refl (o : Option Value) : sameMember o o := by
  cases o with
  | none => trivial
  | some v => exact sameValue_refl v

theorem sameDocument_mapSet {d d' : Fields} (k : String) {v v' : Value}
    (h : sameDocument d d') (hv : sameValue v v') :
    sameDocument (mapSet d k v) (mapSet d' k v') := by
  intro k'
  rw [mapGet_mapSet, mapGet_mapSet]
  by_cases hk : k = k'
  · simp only [hk, if_true]
    exact hv
  · simp only [hk, if_false]
    exact h k'

theorem sameDocument_prefixClash {d d' : Fields} (r : String) (h : sameDocument d d') :
    sameDocument (prefixClash d r) (prefixClash d' r) := by
  have hr := h r
  unfold prefixClash
  cases hd : mapGet d r with
  | none =>
    cases hd' : mapGet d' r with
    | none => exact h
    | some v' =>
      rw [hd, hd'] at hr
      exact absurd hr (by simp [sameMember])
  | some v =>
    cases hd' : mapGet d' r with
    | none =>
      rw [hd, hd'] at hr
      exact absurd hr (by simp [sameMember])
    | some v' =>
      rw [hd, hd'] at hr
      exact sameDocument_mapSet _ h hr

theorem sameDocument_prefixFieldClashes {d d' : Fields} (fm : FieldMap)
    (h : sameDocument d d') :
    sameDocument (prefixFieldClashes d fm) (prefixFieldClashes d' fm) :=
  sameDocument_prefixClash _ (sameDocument_prefixClash _ (sameDocument_prefixClash _ h))

theorem sameDocument_writeReserved (ext : Externals) (f : ApexUpJSONFormatter)
    (e1 e2 : Entry) (ht : e1.Time = e2.Time) (hl : e1.Level = e2.Level)
    (hm : e1.Message = e2.Message) {d d' : Fields} (h : sameDocument d d') :
    sameDocument (writeReserved ext f e1 d) (writeReserved ext f e2 d') := by
  simp only [writeReserved, ht, hl, hm]
  apply sameDocument_mapSet _ _ (sameValue_refl _)
  apply sameDocument_mapSet _ _ (sameValue_refl _)
  cases f.DisableTimestamp with
  | true => exact h
  | false => exact sameDocument_mapSet _ h (sameValue_refl _)

theorem partition_sameDocument (e1 e2 : Entry) (hperm : e1.Data.Perm e2.Data)
    (hn : (mapKeys e1.Data).Nodup)
    (hne : ∀ kv ∈ e1.Data, kv.2.isError = true → kv.1 ≠ "fields") :
    ∃ d1 d2, partition e1 = Except.ok d1 ∧ partition e2 = Except.ok d2 ∧
      sameDocument d1 d2 := by
  have hn2 : (mapKeys e2.Data).Nodup := (hperm.map Prod.fst).nodup_iff.mp hn
  have hne2 : ∀ kv ∈ e2.Data, kv.2.isError = true → kv.1 ≠ "fields" :=
    fun kv hkv => hne kv (hperm.mem_iff.mpr hkv)
  obtain ⟨d1, hp1, hf1⟩ := partition_fields e1 hn hne
  obtain ⟨d2, hp2, hf2⟩ := partition_fields e2 hn2 hne2
  refine ⟨d1, d2, hp1, hp2, ?_⟩
  intro k
  by_cases hk : k = "fields"
  · subst hk
    rw [hf1, hf2]
    exact mapGet_perm (hperm.filter _) (nonErrors_nodup e1.Data hn)
  · by_cases herr : ∃ msg, (k, Value.err msg) ∈ e1.Data
    · obtain ⟨msg, hmem⟩ := herr
      rw [partitionLoop_err e1.Data _ d1 k msg hp1 hn hmem,
        partitionLoop_err e2.Data _ d2 k msg hp2 hn2 (hperm.mem_iff.mp hmem)]
      exact sameMember_refl _
    · rw [mapGet_partition_none e1 d1 hp1 k hk (fun msg h => herr ⟨msg, h⟩),
        mapGet_partition_none e2 d2 hp2 k hk
          (fun msg h => herr ⟨msg, hperm.mem_iff.mpr h⟩)]
      trivial

/-! ## The claims -/

/-- C1, as stated, fails: with the zero-value formatter the resolved LEVEL name is
`level`; for the entry `WithField("level", "something")` the `fields` sub-document of the
built document is `{"level": "something"}` and has no key `fields.level`. -/
theorem C1_counterexample :
    "level" ∈ resolvedNames defaultFormatter ∧
    ("level", Value.str "something") ∈ (withField "level" (Value.str "something")).Data ∧
    buildDocument sampleExt defaultFormatter (withField "level" (Value.str "something")) =
      Except.ok [("fields", Value.obj [("level", Value.str "something")]),
        ("timestamp", Value.str "0001-01-01T00:00:00Z"), ("message", Value.str ""),
        ("level", Value.str "panic")] ∧
    mapGet [("level", Value.str "something")] ("fields." ++ "level") = none :=
  ⟨by decide, List.mem_cons_self _ _, rfl, rfl⟩

/-- C1 (amended): for every configuration in which no role resolves to `fields` and every
entry (keys unique) with no error-like attribute named `fields`, a non-error attribute
whose key equals a resolved TIME, LEVEL or MESSAGE name `r` is held by the `fields`
sub-document of the built document under `r` itself, unprefixed, with the user's original
value; the sub-document has a key `"fields." ++ r` only when the entry itself has a
non-error attribute of that name. -/
theorem C1_clashing_attribute_kept_under_own_key (ext : Externals)
    (f : ApexUpJSONFormatter) (e : Entry) (r : String) (v : Value)
    (_hr : r ∈ resolvedNames f) (hnf : "fields" ∉ resolvedNames f)
    (hn : (mapKeys e.Data).Nodup)
    (hne : ∀ kv ∈ e.Data, kv.2.isError = true → kv.1 ≠ "fields")
    (hm : (r, v) ∈ e.Data) (hv : v.isError = false) :
    ∃ doc fd, buildDocument ext f e = Except.ok doc ∧
      mapGet doc "fields" = some (Value.obj fd) ∧ mapGet fd r = some v ∧
      ∀ w, mapGet fd ("fields." ++ r) = some w →
        ("fields." ++ r, w) ∈ e.Data ∧ w.isError = false := by
  obtain ⟨doc, h1, h2⟩ := buildDocument_fields ext f e hnf hn hne
  refine ⟨doc, nonErrors e.Data, h1, h2, ?_, ?_⟩
  · exact mapGet_of_mem_nodup _ r v (nonErrors_nodup e.Data hn)
      ((mem_nonErrors e.Data r v).mpr ⟨hm, hv⟩)
  · intro w hw
    exact (mem_nonErrors e.Data _ w).mp (mem_of_mapGet _ _ w hw)

/-- Witness of C1 (amended) on the input of `TestFieldClashWithLevel`. -/
theorem C1_clashing_attribute_kept_under_own_key_witness :
    ("level" ∈ resolvedNames defaultFormatter ∧ "fields" ∉ resolvedNames defaultFormatter ∧
      (mapKeys (withField "level" (Value.str "something")).Data).Nodup) ∧
    ∃ doc fd, buildDocument sampleExt defaultFormatter
        (withField "level" (Value.str "something")) = Except.ok doc ∧
      mapGet doc "fields" = some (Value.obj fd) ∧
      mapGet fd "level" = some (Value.str "something") ∧
      ∀ w, mapGet fd ("fields." ++ "level") = some w →
        ("fields." ++ "level", w) ∈ (withField "level" (Value.str "something")).Data ∧
          w.isError = false :=
  ⟨⟨by decide, by decide, by decide⟩,
    C1_clashing_attribute_kept_under_own_key sampleExt defaultFormatter
      (withField "level" (Value.str "something")) "level" (Value.str "something")
      (by decide) (by decide) (by decide) (by decide) (List.mem_cons_self _ _) rfl⟩

/-- C2: for every configuration whose three resolved key names are pairwise distinct and
every entry, the built document holds at top level `entry.Message` under the resolved
MESSAGE key, the level's text under the resolved LEVEL key and, when `DisableTimestamp`
is false, the entry's time rendered with the effective layout under the resolved TIME
key, whatever attributes the entry carries. -/
theorem C2_reserved_values_at_top_level (ext : Externals) (f : ApexUpJSONFormatter)
    (e : Entry) (doc : Fields) (hd : (resolvedNames f).Nodup)
    (hb : buildDocument ext f e = Except.ok doc) :
    mapGet doc (f.FieldMap.resolve FieldKeyMsg) = some (Value.str e.Message) ∧
    mapGet doc (f.FieldMap.resolve FieldKeyLevel) =
      some (Value.str (ext.levelString e.Level)) ∧
    (f.DisableTimestamp = false →
      mapGet doc (f.FieldMap.resolve FieldKeyTime) =
        some (Value.str (ext.timeFormat e.Time (effectiveTimestampFormat f)))) := by
  obtain ⟨data, _, rfl⟩ := buildDocument_eq ext f e doc hb
  obtain ⟨h1, h2, h3⟩ := resolvedNames_nodup f hd
  exact ⟨mapGet_writeReserved_msg ext f e _ h3, mapGet_writeReserved_level ext f e _,
    fun hdis => mapGet_writeReserved_time ext f e _ hdis h1 h2⟩

/-- Witness of C2: an entry whose attributes are named like the three resolved keys, one of
them error-like. -/
theorem C2_reserved_values_at_top_level_witness :
    ((resolvedNames defaultFormatter).Nodup ∧
      buildDocument sampleExt defaultFormatter
        ⟨[("timestamp", Value.str "right now!"), ("message", Value.err "impostor"),
          ("level", Value.num 7)], 0, 0, "oh hai"⟩ =
        Except.ok [("fields", Value.obj [("timestamp", Value.str "right now!"),
          ("level", Value.num 7)]), ("message", Value.str "oh hai"),
          ("fields.message", Value.str "impostor"),
          ("timestamp", Value.str "0001-01-01T00:00:00Z"), ("level", Value.str "panic")]) ∧
    mapGet [("fields", Value.obj [("timestamp", Value.str "right now!"),
        ("level", Value.num 7)]), ("message", Value.str "oh hai"),
        ("fields.message", Value.str "impostor"),
        ("timestamp", Value.str "0001-01-01T00:00:00Z"), ("level", Value.str "panic")]
      (defaultFormatter.FieldMap.resolve FieldKeyMsg) = some (Value.str "oh hai") ∧
    mapGet [("fields", Value.obj [("timestamp", Value.str "right now!"),
        ("level", Value.num 7)]), ("message", Value.str "oh hai"),
        ("fields.message", Value.str "impostor"),
        ("timestamp", Value.str "0001-01-01T00:00:00Z"), ("level", Value.str "panic")]
      (defaultFormatter.FieldMap.resolve FieldKeyLevel) = some (Value.str "panic") ∧
    (defaultFormatter.DisableTimestamp = false →
      mapGet [("fields", Value.obj [("timestamp", Value.str "right now!"),
        ("level", Value.num 7)]), ("message", Value.str "oh hai"),
        ("fields.message", Value.str "impostor"),
        ("timestamp", Value.str "0001-01-01T00:00:00Z"), ("level", Value.str "panic")]
        (defaultFormatter.FieldMap.resolve FieldKeyTime) =
        some (Value.str "0001-01-01T00:00:00Z")) :=
  ⟨⟨by decide, rfl⟩,
    C2_reserved_values_at_top_level sampleExt defaultFormatter
      ⟨[("timestamp", Value.str "right now!"), ("message", Value.err "impostor"),
        ("level", Value.num 7)], 0, 0, "oh hai"⟩ _ (by decide) rfl⟩

/-- C3, as stated, fails: with `DisableTimestamp = true` and the default names, the entry
`WithField("timestamp", errors.New("boom"))` gives a document whose top level has a member
under the resolved TIME name `timestamp`, holding the text of the error. -/
theorem C3_counterexample :
    buildDocument sampleExt ⟨"", true, []⟩ (withField "timestamp" (Value.err "boom")) =
      Except.ok [("fields", Value.obj []), ("timestamp", Value.str "boom"),
        ("fields.timestamp", Value.str "boom"), ("message", Value.str ""),
        ("level", Value.str "panic")] ∧
    mapGet [("fields", Value.obj []), ("timestamp", Value.str "boom"),
        ("fields.timestamp", Value.str "boom"), ("message", Value.str ""),
        ("level", Value.str "panic")]
      (FieldMap.resolve [] FieldKeyTime) = some (Value.str "boom") :=
  ⟨rfl, rfl⟩

/-- C3 (amended): with `DisableTimestamp = true`, for every entry for which the document is
built, `Format` writes no rendered time: the write of line 93 is skipped, the document is the
result of the clash step followed by the MESSAGE and LEVEL writes alone, and it is the same
document whatever the entry's time, the layout and the time renderer are. The document has no
top-level member under the resolved TIME name `t` provided `t` is not `fields`, differs from
the resolved MESSAGE and LEVEL names, is not `"fields." ++ r` for a resolved name `r`, and is
not the key of an error-like attribute of the entry. -/
theorem C3_no_time_member_when_disabled (ext : Externals) (f : ApexUpJSONFormatter)
    (e : Entry) (doc : Fields) (hdis : f.DisableTimestamp = true)
    (hb : buildDocument ext f e = Except.ok doc) :
    (∀ data, writeTimestamp ext f e data = data) ∧
    (∃ data, partition e = Except.ok data ∧
      doc = mapSet (mapSet (prefixFieldClashes data f.FieldMap)
        (f.FieldMap.resolve FieldKeyMsg) (Value.str e.Message))
        (f.FieldMap.resolve FieldKeyLevel) (Value.str (ext.levelString e.Level))) ∧
    (∀ (render : Int → String → String) (time : Int) (layout : String),
      buildDocument ⟨ext.marshal, render, ext.levelString⟩ ⟨layout, true, f.FieldMap⟩
        ⟨e.Data, time, e.Level, e.Message⟩ = Except.ok doc) ∧
    (f.FieldMap.resolve FieldKeyTime ≠ "fields" →
      f.FieldMap.resolve FieldKeyTime ≠ f.FieldMap.resolve FieldKeyMsg →
      f.FieldMap.resolve FieldKeyTime ≠ f.FieldMap.resolve FieldKeyLevel →
      (∀ r ∈ resolvedNames f, f.FieldMap.resolve FieldKeyTime ≠ "fields." ++ r) →
      (∀ msg, (f.FieldMap.resolve FieldKeyTime, Value.err msg) ∉ e.Data) →
      mapGet doc (f.FieldMap.resolve FieldKeyTime) = none) := by
  obtain ⟨data, hp, rfl⟩ := buildDocument_eq ext f e doc hb
  have hw : writeReserved ext f e (prefixFieldClashes data f.FieldMap) =
      mapSet (mapSet (prefixFieldClashes data f.FieldMap)
        (f.FieldMap.resolve FieldKeyMsg) (Value.str e.Message))
        (f.FieldMap.resolve FieldKeyLevel) (Value.str (ext.levelString e.Level)) := by
    simp only [writeReserved, hdis, if_true]
  refine ⟨?_, ⟨data, hp, hw⟩, ?_, ?_⟩
  · intro d
    simp only [writeTimestamp, hdis, if_true]
  · intro render time layout
    have hp' : partition ⟨e.Data, time, e.Level, e.Message⟩ = Except.ok data := hp
    simp only [buildDocument, hp', hw]
    simp only [writeReserved, if_true]
  · intro hf hmsg hlvl hpre herr
    rw [mapGet_writeReserved_frame ext f e _ _ (Or.inl hdis) hmsg hlvl]
    rw [mapGet_prefixFieldClashes_ne data f.FieldMap _
      (hpre _ ((mem_resolvedNames f _).mpr (Or.inl rfl)))
      (hpre _ ((mem_resolvedNames f _).mpr (Or.inr (Or.inl rfl))))
      (hpre _ ((mem_resolvedNames f _).mpr (Or.inr (Or.inr rfl))))]
    exact mapGet_partition_none e data hp _ hf herr

/-- Witness of C3 (amended) on the input of `TestJSONDisableTimestamp`: the document is the
same under another renderer, time and layout, and has no member under `timestamp`. -/
theorem C3_no_time_member_when_disabled_witness :
    buildDocument sampleExt ⟨"", true, []⟩ (withField "level" (Value.str "something")) =
      Except.ok [("fields", Value.obj [("level", Value.str "something")]),
        ("message", Value.str ""), ("level", Value.str "panic")] ∧
    buildDocument ⟨sampleExt.marshal, fun _ _ => "another time", sampleExt.levelString⟩
        ⟨"2006", true, []⟩ ⟨[("level", Value.str "something")], 7, 0, ""⟩ =
      Except.ok [("fields", Value.obj [("level", Value.str "something")]),
        ("message", Value.str ""), ("level", Value.str "panic")] ∧
    mapGet [("fields", Value.obj [("level", Value.str "something")]),
        ("message", Value.str ""), ("level", Value.str "panic")]
      (FieldMap.resolve [] FieldKeyTime) = none :=
  ⟨rfl,
    (C3_no_time_member_when_disabled sampleExt ⟨"", true, []⟩
      (withField "level" (Value.str "something")) _ rfl rfl).2.2.1
      (fun _ _ => "another time") 7 "2006",
    (C3_no_time_member_when_disabled sampleExt ⟨"", true, []⟩
      (withField "level" (Value.str "something")) _ rfl rfl).2.2.2
      (by decide) (by decide) (by decide) (by decide) (by simp [withField])⟩

/-- C4, code at the failing input: when the loop visits an error-like attribute named
`fields` before a non-error attribute, the type assertion on `data["fields"]` finds a
string and `Format` panics, under every configuration and every serializer. -/
theorem C4_format_panics_on_error_named_fields (ext : Externals)
    (f : ApexUpJSONFormatter) :
    Format ext f ⟨[("fields", Value.err "boom"), ("a", Value.str "x")], 0, 0, ""⟩ =
      Outcome.panicked Panic.interfaceConversion :=
  rfl

/-- C5, as stated, fails: for the entry `WithField("error", errors.New("wild walrus"))` of
`TestErrorNotLost` and the zero-value formatter, the `fields` sub-document of the built
document is empty; the text of the error is a top-level member. -/
theorem C5_counterexample :
    buildDocument sampleExt defaultFormatter (withField "error" (Value.err "wild walrus")) =
      Except.ok [("fields", Value.obj []), ("error", Value.str "wild walrus"),
        ("timestamp", Value.str "0001-01-01T00:00:00Z"), ("message", Value.str ""),
        ("level", Value.str "panic")] ∧
    mapGet [("fields", Value.obj []), ("error", Value.str "wild walrus"),
        ("timestamp", Value.str "0001-01-01T00:00:00Z"), ("message", Value.str ""),
        ("level", Value.str "panic")] "fields" = some (Value.obj []) ∧
    mapGet ([] : Fields) "error" = none :=
  ⟨rfl, rfl, rfl⟩

/-- C5 (amended): for every configuration and every entry (keys unique) for which the
document is built, an error-like attribute `(k, e)` whose key is neither a resolved reserved
name nor `"fields." ++ r` for a resolved name `r` has its text `e.Error()` at the top level
of the document under `k`; the `fields` sub-document, when the document has one, has no
member under `k`. -/
theorem C5_error_text_kept_at_top_level (ext : Externals) (f : ApexUpJSONFormatter)
    (e : Entry) (doc : Fields) (k msg : String) (hn : (mapKeys e.Data).Nodup)
    (hb : buildDocument ext f e = Except.ok doc) (hm : (k, Value.err msg) ∈ e.Data)
    (hk : k ∉ resolvedNames f) (hpre : ∀ r ∈ resolvedNames f, k ≠ "fields." ++ r) :
    mapGet doc k = some (Value.str msg) ∧
      ∀ fd, mapGet doc "fields" = some (Value.obj fd) → mapGet fd k = none := by
  obtain ⟨data, hp, rfl⟩ := buildDocument_eq ext f e doc hb
  constructor
  · rw [mapGet_finish_plain ext f e data k hk hpre]
    exact partitionLoop_err e.Data _ data k msg hp hn hm
  · intro fd hfd
    have h1 := mapGet_writeReserved_obj ext f e _ fd "fields" hfd
    rw [mapGet_prefixFieldClashes_ne data f.FieldMap "fields"
      (Ne.symm (prefixed_ne_fields _)) (Ne.symm (prefixed_ne_fields _))
      (Ne.symm (prefixed_ne_fields _))] at h1
    have h2 := partitionLoop_fields_obj e.Data [("fields", Value.obj [])] data [] fd hp rfl h1
    rw [foldl_mapSet_nodup (nonErrors e.Data) []
      (by simpa using nonErrors_nodup e.Data hn)] at h2
    simp only [List.nil_append] at h2
    subst h2
    cases hg : mapGet (nonErrors e.Data) k with
    | none => rfl
    | some w =>
      have hw := (mem_nonErrors e.Data k w).mp (mem_of_mapGet _ _ _ hg)
      have e1 := mapGet_of_mem_nodup e.Data k w hn hw.1
      rw [mapGet_of_mem_nodup e.Data k _ hn hm] at e1
      cases e1
      cases hw.2

/-- Witness of C5 (amended) on the input of `TestErrorNotLost`. -/
theorem C5_error_text_kept_at_top_level_witness :
    (mapKeys (withField "error" (Value.err "wild walrus")).Data).Nodup ∧
    buildDocument sampleExt defaultFormatter (withField "error" (Value.err "wild walrus")) =
      Except.ok [("fields", Value.obj []), ("error", Value.str "wild walrus"),
        ("timestamp", Value.str "0001-01-01T00:00:00Z"), ("message", Value.str ""),
        ("level", Value.str "panic")] ∧
    (mapGet [("fields", Value.obj []), ("error", Value.str "wild walrus"),
        ("timestamp", Value.str "0001-01-01T00:00:00Z"), ("message", Value.str ""),
        ("level", Value.str "panic")] "error" = some (Value.str "wild walrus") ∧
      ∀ fd, mapGet [("fields", Value.obj []), ("error", Value.str "wild walrus"),
        ("timestamp", Value.str "0001-01-01T00:00:00Z"), ("message", Value.str ""),
        ("level", Value.str "panic")] "fields" = some (Value.obj fd) →
        mapGet fd "error" = none) :=
  ⟨by decide, rfl,
    C5_error_text_kept_at_top_level sampleExt defaultFormatter
      (withField "error" (Value.err "wild walrus")) _ "error" "wild walrus" (by decide) rfl
      (List.mem_cons_self _ _) (by decide) (by decide)⟩

/-- C6: for every configuration and every entry (keys unique) that has no error-like
attribute named `fields`, the document is built and each error-like attribute `(k, e)`
whose key is neither a resolved reserved name nor `"fields." ++ r` for a resolved name `r`
is a top-level member of it under its own key `k`, holding exactly the text `e.Error()`. -/
theorem C6_error_attribute_at_top_level (ext : Externals) (f : ApexUpJSONFormatter)
    (e : Entry) (k msg : String) (hn : (mapKeys e.Data).Nodup)
    (hne : ∀ kv ∈ e.Data, kv.2.isError = true → kv.1 ≠ "fields")
    (hm : (k, Value.err msg) ∈ e.Data) (hk : k ∉ resolvedNames f)
    (hpre : ∀ r ∈ resolvedNames f, k ≠ "fields." ++ r) :
    ∃ doc, buildDocument ext f e = Except.ok doc ∧ mapGet doc k = some (Value.str msg) := by
  obtain ⟨data, hp, _⟩ := partition_fields e hn hne
  refine ⟨writeReserved ext f e (prefixFieldClashes data f.FieldMap), ?_, ?_⟩
  · simp only [buildDocument, hp]
  · rw [mapGet_finish_plain ext f e data k hk hpre]
    exact partitionLoop_err e.Data _ data k msg hp hn hm

/-- Witness of C6 on the input of `TestErrorNotLostOnFieldNotNamedError`. -/
theorem C6_error_attribute_at_top_level_witness :
    (mapKeys (withField "omg" (Value.err "wild walrus")).Data).Nodup ∧
    ∃ doc, buildDocument sampleExt defaultFormatter
        (withField "omg" (Value.err "wild walrus")) = Except.ok doc ∧
      mapGet doc "omg" = some (Value.str "wild walrus") :=
  ⟨by decide,
    C6_error_attribute_at_top_level sampleExt defaultFormatter
      (withField "omg" (Value.err "wild walrus")) "omg" "wild walrus" (by decide)
      (by decide) (List.mem_cons_self _ _) (by decide) (by decide)⟩

/-- C7: for every configuration in which no role resolves to `fields` and every entry
(keys unique) with no error-like attribute named `fields`, the document is built and its
top-level `fields` member is a sub-document whose key/value pairs are exactly the entry's
non-error attributes, each under its own unprefixed key with its value unchanged. -/
theorem C7_fields_member_holds_nonerror_attributes (ext : Externals)
    (f : ApexUpJSONFormatter) (e : Entry) (hnf : "fields" ∉ resolvedNames f)
    (hn : (mapKeys e.Data).Nodup)
    (hne : ∀ kv ∈ e.Data, kv.2.isError = true → kv.1 ≠ "fields") :
    ∃ doc fd, buildDocument ext f e = Except.ok doc ∧
      mapGet doc "fields" = some (Value.obj fd) ∧ (mapKeys fd).Nodup ∧
      ∀ k v, mapGet fd k = some v ↔ ((k, v) ∈ e.Data ∧ v.isError = false) := by
  obtain ⟨doc, h1, h2⟩ := buildDocument_fields ext f e hnf hn hne
  refine ⟨doc, nonErrors e.Data, h1, h2, nonErrors_nodup e.Data hn, ?_⟩
  intro k v
  constructor
  · intro h
    exact (mem_nonErrors e.Data k v).mp (mem_of_mapGet _ _ _ h)
  · intro h
    exact mapGet_of_mem_nodup _ k v (nonErrors_nodup e.Data hn)
      ((mem_nonErrors e.Data k v).mpr h)

/-- Witness of C7 on the input of `TestFieldClashWithRemappedFields`. -/
theorem C7_fields_member_holds_nonerror_attributes_witness :
    "fields" ∉ resolvedNames ⟨"", false,
      [("timestamp", "@timestamp"), ("level", "@level"), ("message", "@message")]⟩ ∧
    ∃ doc fd, buildDocument sampleExt ⟨"", false,
        [("timestamp", "@timestamp"), ("level", "@level"), ("message", "@message")]⟩
        ⟨[("@timestamp", Value.str "@timestamp"), ("@level", Value.str "@level"),
          ("@message", Value.str "@message"), ("timestamp", Value.str "timestamp"),
          ("level", Value.str "level"), ("msg", Value.str "msg")], 0, 0, ""⟩ =
        Except.ok doc ∧
      mapGet doc "fields" = some (Value.obj fd) ∧ (mapKeys fd).Nodup ∧
      ∀ k v, mapGet fd k = some v ↔
        ((k, v) ∈ [("@timestamp", Value.str "@timestamp"), ("@level", Value.str "@level"),
          ("@message", Value.str "@message"), ("timestamp", Value.str "timestamp"),
          ("level", Value.str "level"), ("msg", Value.str "msg")] ∧ v.isError = false) :=
  ⟨by decide,
    C7_fields_member_holds_nonerror_attributes sampleExt ⟨"", false,
        [("timestamp", "@timestamp"), ("level", "@level"), ("message", "@message")]⟩
      ⟨[("@timestamp", Value.str "@timestamp"), ("@level", Value.str "@level"),
        ("@message", Value.str "@message"), ("timestamp", Value.str "timestamp"),
        ("level", Value.str "level"), ("msg", Value.str "msg")], 0, 0, ""⟩
      (by decide) (by decide) (by decide)⟩

/-- C8, as stated, fails: for the entry `WithField("error", errors.New("wild walrus"))` of
`TestErrorNotLost` and the zero-value formatter, the top-level keys of the built document
include the attribute key `error`, which is none of `fields`, `message`, `level`,
`timestamp`. -/
theorem C8_counterexample :
    buildDocument sampleExt defaultFormatter (withField "error" (Value.err "wild walrus")) =
      Except.ok [("fields", Value.obj []), ("error", Value.str "wild walrus"),
        ("timestamp", Value.str "0001-01-01T00:00:00Z"), ("message", Value.str ""),
        ("level", Value.str "panic")] ∧
    "error" ∈ mapKeys [("fields", Value.obj []), ("error", Value.str "wild walrus"),
        ("timestamp", Value.str "0001-01-01T00:00:00Z"), ("message", Value.str ""),
        ("level", Value.str "panic")] ∧
    "error" ∉ "fields" :: resolvedNames defaultFormatter :=
  ⟨rfl, by decide, by decide⟩

/-- C8 (amended): for every entry and configuration for which the document is built, the
set of top-level keys of the document is exactly: `fields`; the key of every error-like
attribute; for each clash check in the order TIME, MESSAGE, LEVEL, `"fields." ++ r` when the
checked name `r` is a top-level key at the time of its check, that is, `r` is `fields`, the
key of an error-like attribute, or a prefixed key added by an earlier check; the resolved
MESSAGE key; the resolved LEVEL key; and the resolved TIME key when `DisableTimestamp` is
false. No other key appears at top level. In particular, for an entry with no error-like
attribute and a configuration in which no role resolves to `fields`, the top-level keys are
exactly `fields`, the resolved MESSAGE key, the resolved LEVEL key and, when
`DisableTimestamp` is false, the resolved TIME key. -/
theorem C8_top_level_keys (ext : Externals) (f : ApexUpJSONFormatter) (e : Entry)
    (doc : Fields) (hb : buildDocument ext f e = Except.ok doc) :
    (∀ k, k ∈ mapKeys doc ↔
      keyAfterLoop e k ∨
      (k = "fields." ++ f.FieldMap.resolve FieldKeyTime ∧
        keyAfterLoop e (f.FieldMap.resolve FieldKeyTime)) ∨
      (k = "fields." ++ f.FieldMap.resolve FieldKeyMsg ∧
        (keyAfterLoop e (f.FieldMap.resolve FieldKeyMsg) ∨
          (f.FieldMap.resolve FieldKeyMsg = "fields." ++ f.FieldMap.resolve FieldKeyTime ∧
            keyAfterLoop e (f.FieldMap.resolve FieldKeyTime)))) ∨
      (k = "fields." ++ f.FieldMap.resolve FieldKeyLevel ∧
        (keyAfterLoop e (f.FieldMap.resolve FieldKeyLevel) ∨
          (f.FieldMap.resolve FieldKeyLevel = "fields." ++ f.FieldMap.resolve FieldKeyTime ∧
            keyAfterLoop e (f.FieldMap.resolve FieldKeyTime)) ∨
          (f.FieldMap.resolve FieldKeyLevel = "fields." ++ f.FieldMap.resolve FieldKeyMsg ∧
            (keyAfterLoop e (f.FieldMap.resolve FieldKeyMsg) ∨
              (f.FieldMap.resolve FieldKeyMsg =
                  "fields." ++ f.FieldMap.resolve FieldKeyTime ∧
                keyAfterLoop e (f.FieldMap.resolve FieldKeyTime)))))) ∨
      k = f.FieldMap.resolve FieldKeyMsg ∨ k = f.FieldMap.resolve FieldKeyLevel ∨
      (f.DisableTimestamp = false ∧ k = f.FieldMap.resolve FieldKeyTime)) ∧
    ((∀ kv ∈ e.Data, kv.2.isError = false) → "fields" ∉ resolvedNames f →
      ∀ k, k ∈ mapKeys doc ↔
        k = "fields" ∨ k = f.FieldMap.resolve FieldKeyMsg ∨
        k = f.FieldMap.resolve FieldKeyLevel ∨
        (f.DisableTimestamp = false ∧ k = f.FieldMap.resolve FieldKeyTime)) := by
  obtain ⟨data, hp, rfl⟩ := buildDocument_eq ext f e doc hb
  have hkeys : ∀ k, k ∈ mapKeys data ↔ keyAfterLoop e k :=
    fun k => mem_mapKeys_partition e data hp k
  have hall : ∀ k, k ∈ mapKeys (writeReserved ext f e (prefixFieldClashes data f.FieldMap)) ↔
      keyAfterLoop e k ∨
      (k = "fields." ++ f.FieldMap.resolve FieldKeyTime ∧
        keyAfterLoop e (f.FieldMap.resolve FieldKeyTime)) ∨
      (k = "fields." ++ f.FieldMap.resolve FieldKeyMsg ∧
        (keyAfterLoop e (f.FieldMap.resolve FieldKeyMsg) ∨
          (f.FieldMap.resolve FieldKeyMsg = "fields." ++ f.FieldMap.resolve FieldKeyTime ∧
            keyAfterLoop e (f.FieldMap.resolve FieldKeyTime)))) ∨
      (k = "fields." ++ f.FieldMap.resolve FieldKeyLevel ∧
        (keyAfterLoop e (f.FieldMap.resolve FieldKeyLevel) ∨
          (f.FieldMap.resolve FieldKeyLevel = "fields." ++ f.FieldMap.resolve FieldKeyTime ∧
            keyAfterLoop e (f.FieldMap.resolve FieldKeyTime)) ∨
          (f.FieldMap.resolve FieldKeyLevel = "fields." ++ f.FieldMap.resolve FieldKeyMsg ∧
            (keyAfterLoop e (f.FieldMap.resolve FieldKeyMsg) ∨
              (f.FieldMap.resolve FieldKeyMsg =
                  "fields." ++ f.FieldMap.resolve FieldKeyTime ∧
                keyAfterLoop e (f.FieldMap.resolve FieldKeyTime)))))) ∨
      k = f.FieldMap.resolve FieldKeyMsg ∨ k = f.FieldMap.resolve FieldKeyLevel ∨
      (f.DisableTimestamp = false ∧ k = f.FieldMap.resolve FieldKeyTime) := by
    intro k
    rw [mem_mapKeys_writeReserved]
    simp only [prefixFieldClashes, mem_mapKeys_prefixClash, hkeys, or_assoc]
  refine ⟨hall, ?_⟩
  intro hnoerr hnf k
  have hK : ∀ x, keyAfterLoop e x ↔ x = "fields" := by
    intro x
    constructor
    · rintro (h | ⟨msg, h⟩)
      · exact h
      · have := hnoerr _ h
        cases this
    · exact fun h => Or.inl h
  have hr := (mem_resolvedNames f "fields").not.mp hnf
  simp only [not_or] at hr
  have ht : ¬ f.FieldMap.resolve FieldKeyTime = "fields" := fun h => hr.1 h.symm
  have hm : ¬ f.FieldMap.resolve FieldKeyMsg = "fields" := fun h => hr.2.1 h.symm
  have hl : ¬ f.FieldMap.resolve FieldKeyLevel = "fields" := fun h => hr.2.2 h.symm
  rw [hall k]
  simp only [hK, ht, hm, hl, and_false, false_or, or_false]

/-- Witness of C8 (amended): an error-like attribute named like the resolved LEVEL key next
to a plain attribute; the top level gains the prefixed copy of `level` and not the plain
key. -/
theorem C8_top_level_keys_witness :
    buildDocument sampleExt defaultFormatter
      ⟨[("level", Value.err "boom"), ("user", Value.str "ann")], 0, 0, "hi"⟩ =
      Except.ok [("fields", Value.obj [("user", Value.str "ann")]),
        ("level", Value.str "panic"), ("fields.level", Value.str "boom"),
        ("timestamp", Value.str "0001-01-01T00:00:00Z"), ("message", Value.str "hi")] ∧
    "fields.level" ∈ mapKeys [("fields", Value.obj [("user", Value.str "ann")]),
        ("level", Value.str "panic"), ("fields.level", Value.str "boom"),
        ("timestamp", Value.str "0001-01-01T00:00:00Z"), ("message", Value.str "hi")] ∧
    "user" ∉ mapKeys [("fields", Value.obj [("user", Value.str "ann")]),
        ("level", Value.str "panic"), ("fields.level", Value.str "boom"),
        ("timestamp", Value.str "0001-01-01T00:00:00Z"), ("message", Value.str "hi")] :=
  ⟨rfl,
    ((C8_top_level_keys sampleExt defaultFormatter
      ⟨[("level", Value.err "boom"), ("user", Value.str "ann")], 0, 0, "hi"⟩ _ rfl).1
      "fields.level").mpr
      (Or.inr (Or.inr (Or.inr (Or.inl
        ⟨rfl, Or.inl (Or.inr ⟨"boom", List.mem_cons_self _ _⟩)⟩)))),
    by decide⟩

/-- C9: for every entry and configuration for which the document is built and its
serialization succeeds with bytes `s`, `Format` returns exactly `s` followed by the one
byte `0x0A` and no error; the output is non-empty, its last byte is the newline, and
removing that byte gives `s` back. -/
theorem C9_output_is_serialization_and_newline (ext : Externals) (f : ApexUpJSONFormatter)
    (e : Entry) (doc : Fields) (s : List UInt8)
    (hb : buildDocument ext f e = Except.ok doc) (hs : ext.marshal doc = Except.ok s) :
    Format ext f e = Outcome.returned (s ++ [10]) none ∧ s ++ [10] ≠ [] ∧
      (s ++ [10]).getLast? = some 10 ∧ (s ++ [10]).dropLast = s := by
  refine ⟨?_, ?_, ?_, ?_⟩
  · simp only [Format, hb, hs]
  · simp
  · simp
  · simp

/-- Witness of C9 on the input of `TestJSONEntryEndsWithNewline`. -/
theorem C9_output_is_serialization_and_newline_witness :
    sampleExt.marshal [("fields", Value.obj [("level", Value.str "something")]),
        ("timestamp", Value.str "0001-01-01T00:00:00Z"), ("message", Value.str ""),
        ("level", Value.str "panic")] = Except.ok [123, 125] ∧
    (Format sampleExt defaultFormatter (withField "level" (Value.str "something")) =
        Outcome.returned ([123, 125] ++ [10]) none ∧
      ([123, 125] : List UInt8) ++ [10] ≠ [] ∧
      (([123, 125] : List UInt8) ++ [10]).getLast? = some 10 ∧
      (([123, 125] : List UInt8) ++ [10]).dropLast = [123, 125]) :=
  ⟨rfl,
    C9_output_is_serialization_and_newline sampleExt defaultFormatter
      (withField "level" (Value.str "something")) _ [123, 125] rfl rfl⟩

/-- C10: for every entry and configuration, `Format` returns an error exactly when the
document is built and its serialization fails; the returned bytes are then empty and the
returned error is the fixed prefix followed by the text of the serializer's error. -/
theorem C10_error_iff_serialization_fails (ext : Externals) (f : ApexUpJSONFormatter)
    (e : Entry) :
    ((∃ bytes err, Format ext f e = Outcome.returned bytes (some err)) ↔
      ∃ doc cause, buildDocument ext f e = Except.ok doc ∧
        ext.marshal doc = Except.error cause) ∧
    ∀ doc cause, buildDocument ext f e = Except.ok doc →
      ext.marshal doc = Except.error cause →
      Format ext f e =
        Outcome.returned [] (some ("failed to marshal fields to JSON, " ++ cause)) := by
  constructor
  · constructor
    · rintro ⟨bytes, err, h⟩
      unfold Format at h
      cases hb : buildDocument ext f e with
      | error p => rw [hb] at h; cases h
      | ok doc =>
        cases hm : ext.marshal doc with
        | error cause => exact ⟨doc, cause, rfl, hm⟩
        | ok s =>
          simp only [hb, hm] at h
          cases h
    · rintro ⟨doc, cause, hb, hm⟩
      exact ⟨[], "failed to marshal fields to JSON, " ++ cause,
        by simp only [Format, hb, hm]⟩
  · intro doc cause hb hm
    simp only [Format, hb, hm]

/-- Witness of C10: an attribute holding a function value makes the sample serializer fail;
`Format` then returns no bytes and the wrapped error. -/
theorem C10_error_iff_serialization_fails_witness :
    Format sampleExt defaultFormatter (withField "callback" Value.func) =
      Outcome.returned []
        (some ("failed to marshal fields to JSON, " ++ "json: unsupported type: func()")) :=
  (C10_error_iff_serialization_fails sampleExt defaultFormatter
    (withField "callback" Value.func)).2 _ _ rfl rfl

/-- C11: for every FieldMap and every role, `resolve` returns the mapped name when the
FieldMap has an entry for the role, also when that name is the empty string, and the role's
default name otherwise; with no role mapped the three resolved names are `timestamp`,
`level` and `message`. -/
theorem C11_resolve_mapped_or_default (fm : FieldMap) (role : String) :
    (∀ name, mapGet fm role = some name → fm.resolve role = name) ∧
    (mapGet fm role = none → fm.resolve role = role) ∧
    (mapGet fm FieldKeyTime = none → fm.resolve FieldKeyTime = "timestamp") ∧
    (mapGet fm FieldKeyLevel = none → fm.resolve FieldKeyLevel = "level") ∧
    (mapGet fm FieldKeyMsg = none → fm.resolve FieldKeyMsg = "message") ∧
    FieldMap.resolve [] FieldKeyTime = "timestamp" ∧
    FieldMap.resolve [] FieldKeyLevel = "level" ∧
    FieldMap.resolve [] FieldKeyMsg = "message" := by
  refine ⟨?_, ?_, ?_, ?_, ?_, rfl, rfl, rfl⟩
  · intro name h
    simp only [FieldMap.resolve, h]
  · intro h
    simp only [FieldMap.resolve, h]
  · intro h
    simp only [FieldMap.resolve, h]
    rfl
  · intro h
    simp only [FieldMap.resolve, h]
    rfl
  · intro h
    simp only [FieldMap.resolve, h]
    rfl

/-- Witness of C11: the FieldMap of `TestJSONLevelKey` extended by a TIME entry that maps to
the empty string; LEVEL and TIME resolve to their mapped names, MESSAGE to its default. -/
theorem C11_resolve_mapped_or_default_witness :
    FieldMap.resolve [("level", "somelevel"), ("timestamp", "")] "level" = "somelevel" ∧
    FieldMap.resolve [("level", "somelevel"), ("timestamp", "")] "timestamp" = "" ∧
    FieldMap.resolve [("level", "somelevel"), ("timestamp", "")] FieldKeyMsg = "message" :=
  ⟨(C11_resolve_mapped_or_default [("level", "somelevel"), ("timestamp", "")] "level").1
      "somelevel" rfl,
    (C11_resolve_mapped_or_default [("level", "somelevel"), ("timestamp", "")]
      "timestamp").1 "" rfl,
    (C11_resolve_mapped_or_default [("level", "somelevel"), ("timestamp", "")]
      "message").2.2.2.2.1 rfl⟩

/-- C12: for every entry with an empty attribute mapping and the default configuration, the
built document is exactly the four-member object holding the empty `fields` sub-document,
the entry's time rendered with the RFC 3339 layout under `timestamp`, `entry.Message` under
`message` and the level's text under `level`. -/
theorem C12_default_document_without_attributes (ext : Externals) (e : Entry)
    (h : e.Data = []) :
    buildDocument ext defaultFormatter e =
      Except.ok [("fields", Value.obj []),
        ("timestamp", Value.str (ext.timeFormat e.Time "2006-01-02T15:04:05Z07:00")),
        ("message", Value.str e.Message),
        ("level", Value.str (ext.levelString e.Level))] := by
  obtain ⟨data, time, level, message⟩ := e
  simp only at h
  subst h
  rfl

/-- Witness of C12: the entry `&logrus.Entry{Message: "oh hai"}` of `TestJSONMessageKey`. -/
theorem C12_default_document_without_attributes_witness :
    buildDocument sampleExt defaultFormatter ⟨[], 0, 0, "oh hai"⟩ =
      Except.ok [("fields", Value.obj []),
        ("timestamp", Value.str (sampleExt.timeFormat 0 "2006-01-02T15:04:05Z07:00")),
        ("message", Value.str "oh hai"),
        ("level", Value.str (sampleExt.levelString 0))] :=
  C12_default_document_without_attributes sampleExt ⟨[], 0, 0, "oh hai"⟩ rfl

/-- C13: for every entry and every configuration with `DisableTimestamp` false, the value
written under the resolved TIME key is the entry's time rendered with `TimestampFormat` when
that is non-empty and with the RFC 3339 layout when it is empty; the built document holds
that value under the TIME key when the TIME name differs from the MESSAGE and LEVEL names;
and the document fails to be built only when the attribute loop panics, so an empty layout
causes no failure. -/
theorem C13_time_rendered_with_effective_layout (ext : Externals)
    (f : ApexUpJSONFormatter) (e : Entry) (data : Fields)
    (hd : f.DisableTimestamp = false) :
    (f.TimestampFormat ≠ "" →
      mapGet (writeTimestamp ext f e data) (f.FieldMap.resolve FieldKeyTime) =
        some (Value.str (ext.timeFormat e.Time f.TimestampFormat))) ∧
    (f.TimestampFormat = "" →
      mapGet (writeTimestamp ext f e data) (f.FieldMap.resolve FieldKeyTime) =
        some (Value.str (ext.timeFormat e.Time "2006-01-02T15:04:05Z07:00"))) ∧
    writeReserved ext f e data =
      mapSet (mapSet (writeTimestamp ext f e data) (f.FieldMap.resolve FieldKeyMsg)
        (Value.str e.Message)) (f.FieldMap.resolve FieldKeyLevel)
        (Value.str (ext.levelString e.Level)) ∧
    (∀ doc, buildDocument ext f e = Except.ok doc →
      f.FieldMap.resolve FieldKeyTime ≠ f.FieldMap.resolve FieldKeyMsg →
      f.FieldMap.resolve FieldKeyTime ≠ f.FieldMap.resolve FieldKeyLevel →
      mapGet doc (f.FieldMap.resolve FieldKeyTime) =
        some (Value.str (ext.timeFormat e.Time
          (if f.TimestampFormat = "" then "2006-01-02T15:04:05Z07:00"
            else f.TimestampFormat)))) ∧
    (∀ p, buildDocument ext f e = Except.error p → partition e = Except.error p) := by
  refine ⟨?_, ?_, rfl, ?_, ?_⟩
  · intro hne
    simp only [writeTimestamp, hd, effectiveTimestampFormat, hne]
    exact mapGet_mapSet_self _ _ _
  · intro he
    simp only [writeTimestamp, hd, effectiveTimestampFormat, he]
    exact mapGet_mapSet_self _ _ _
  · intro doc hb h1 h2
    obtain ⟨data', _, rfl⟩ := buildDocument_eq ext f e doc hb
    exact mapGet_writeReserved_time ext f e _ hd h1 h2
  · intro p hp
    cases hq : partition e with
    | error q => rfl
    | ok data' => simp [buildDocument, hq] at hp

/-- Witness of C13: the zero-value formatter, whose `TimestampFormat` is empty, on the entry
of `TestJSONEnableTimestamp`; the document is built and holds the time rendered with the
RFC 3339 layout. -/
theorem C13_time_rendered_with_effective_layout_witness :
    defaultFormatter.DisableTimestamp = false ∧
    mapGet (writeTimestamp sampleExt defaultFormatter
        (withField "level" (Value.str "something")) [("fields", Value.obj [])])
      (defaultFormatter.FieldMap.resolve FieldKeyTime) =
      some (Value.str (sampleExt.timeFormat 0 "2006-01-02T15:04:05Z07:00")) :=
  ⟨rfl,
    (C13_time_rendered_with_effective_layout sampleExt defaultFormatter
      (withField "level" (Value.str "something")) [("fields", Value.obj [])] rfl).2.1 rfl⟩

/-- C14, as stated, fails: with MESSAGE mapped to `fields.timestamp` the three resolved
names are pairwise distinct, yet on the map `{"timestamp": "x"}` the implemented order
TIME, MESSAGE, LEVEL leaves a key `fields.fields.timestamp` that the order MESSAGE, TIME,
LEVEL does not create. -/
theorem C14_counterexample :
    (clashOrder [("message", "fields.timestamp")]).Nodup ∧
    List.Perm ["fields.timestamp", "timestamp", "level"]
      (clashOrder [("message", "fields.timestamp")]) ∧
    mapGet (prefixFieldClashes [("timestamp", Value.str "x")]
      [("message", "fields.timestamp")]) "fields.fields.timestamp" = some (Value.str "x") ∧
    mapGet (prefixClashesInOrder [("timestamp", Value.str "x")]
      ["fields.timestamp", "timestamp", "level"]) "fields.fields.timestamp" = none :=
  ⟨by decide, List.Perm.swap _ _ _, rfl, rfl⟩

/-- C14 (amended): for every FieldMap whose three resolved key names are pairwise distinct
and of which none is `"fields." ++ r` for a resolved name `r`, and every input map,
performing the three clash checks in any order yields the same map (every key reads the
same) as the implemented order TIME, MESSAGE, LEVEL. -/
theorem C14_check_order_irrelevant (fm : FieldMap) (data : Fields) (order : List String)
    (hd : (clashOrder fm).Nodup) (hpre : noPrefixedName (clashOrder fm))
    (hperm : order.Perm (clashOrder fm)) :
    sameMembers (prefixClashesInOrder data order) (prefixFieldClashes data fm) := by
  rw [prefixFieldClashes_eq_inOrder]
  exact prefixClashesInOrder_perm hperm (hperm.nodup_iff.mpr hd)
    (noPrefixedName_perm hperm.symm hpre) data data (sameMembers_refl data)

/-- Witness of C14 (amended): the default names, the order LEVEL, TIME, MESSAGE, and a map
in which all three names are present. -/
theorem C14_check_order_irrelevant_witness :
    ((clashOrder []).Nodup ∧ noPrefixedName (clashOrder []) ∧
      List.Perm ["level", "timestamp", "message"] (clashOrder [])) ∧
    sameMembers
      (prefixClashesInOrder [("fields", Value.obj []), ("timestamp", Value.str "a"),
        ("message", Value.str "b"), ("level", Value.str "c")]
        ["level", "timestamp", "message"])
      (prefixFieldClashes [("fields", Value.obj []), ("timestamp", Value.str "a"),
        ("message", Value.str "b"), ("level", Value.str "c")] []) :=
  ⟨⟨by decide, by decide,
      (List.Perm.swap "timestamp" "level" ["message"]).trans
        (List.Perm.cons "timestamp" (List.Perm.swap "message" "level" []))⟩,
    C14_check_order_irrelevant [] [("fields", Value.obj []), ("timestamp", Value.str "a"),
        ("message", Value.str "b"), ("level", Value.str "c")]
      ["level", "timestamp", "message"] (by decide) (by decide)
      ((List.Perm.swap "timestamp" "level" ["message"]).trans
        (List.Perm.cons "timestamp" (List.Perm.swap "message" "level" [])))⟩

/-- C15: for every FieldMap and every input map `d`, `prefixFieldClashes` removes no key;
every key that is not `"fields." ++ r` for a resolved name `r` reads as before; a key whose
reading changed is `"fields." ++ r` for a resolved name `r` that was present in the map at
the time of its check; and for each resolved name `r` that is present in `d` and is not
itself `"fields." ++ r'` for a resolved name `r'`, the result holds `d[r]` both under `r`
and under `"fields." ++ r`. -/
theorem C15_clash_step_only_adds_prefixed_copies (fm : FieldMap) (d : Fields) :
    (∀ k ∈ mapKeys d, k ∈ mapKeys (prefixFieldClashes d fm)) ∧
    (∀ k, (∀ r ∈ clashOrder fm, k ≠ "fields." ++ r) →
      mapGet (prefixFieldClashes d fm) k = mapGet d k) ∧
    (∀ k, mapGet (prefixFieldClashes d fm) k ≠ mapGet d k →
      (k = "fields." ++ fm.resolve FieldKeyTime ∧ fm.resolve FieldKeyTime ∈ mapKeys d) ∨
      (k = "fields." ++ fm.resolve FieldKeyMsg ∧
        fm.resolve FieldKeyMsg ∈ mapKeys (prefixClash d (fm.resolve FieldKeyTime))) ∨
      (k = "fields." ++ fm.resolve FieldKeyLevel ∧
        fm.resolve FieldKeyLevel ∈
          mapKeys (prefixClash (prefixClash d (fm.resolve FieldKeyTime))
            (fm.resolve FieldKeyMsg)))) ∧
    (∀ r ∈ clashOrder fm, ∀ v, mapGet d r = some v →
      (∀ r' ∈ clashOrder fm, r ≠ "fields." ++ r') →
      mapGet (prefixFieldClashes d fm) r = some v ∧
        mapGet (prefixFieldClashes d fm) ("fields." ++ r) = some v) := by
  refine ⟨fun k hk => mapKeys_subset_prefixFieldClashes d fm k hk, ?_, ?_, ?_⟩
  · intro k hk
    exact mapGet_prefixFieldClashes_ne d fm k
      (hk _ ((mem_clashOrder fm _).mpr (Or.inl rfl)))
      (hk _ ((mem_clashOrder fm _).mpr (Or.inr (Or.inl rfl))))
      (hk _ ((mem_clashOrder fm _).mpr (Or.inr (Or.inr rfl))))
  · intro k hk
    by_cases h3 : mapGet (prefixFieldClashes d fm) k =
        mapGet (prefixClash (prefixClash d (fm.resolve FieldKeyTime))
          (fm.resolve FieldKeyMsg)) k
    · by_cases h2 : mapGet (prefixClash (prefixClash d (fm.resolve FieldKeyTime))
          (fm.resolve FieldKeyMsg)) k = mapGet (prefixClash d (fm.resolve FieldKeyTime)) k
      · left
        apply mapGet_prefixClash_changed
        rw [← h2, ← h3]
        exact hk
      · exact Or.inr (Or.inl (mapGet_prefixClash_changed _ _ k h2))
    · exact Or.inr (Or.inr (mapGet_prefixClash_changed _ _ k h3))
  · intro r hr v hv hpre
    exact mapGet_prefixFieldClashes_prefixed d fm r v hr hv hpre

/-- Witness of C15: the default names on a map in which `level` is present; `level` keeps
its value and `fields.level` holds a copy. -/
theorem C15_clash_step_only_adds_prefixed_copies_witness :
    mapGet (prefixFieldClashes [("fields", Value.obj []), ("level", Value.str "boom")] [])
      "level" = some (Value.str "boom") ∧
    mapGet (prefixFieldClashes [("fields", Value.obj []), ("level", Value.str "boom")] [])
      ("fields." ++ "level") = some (Value.str "boom") :=
  (C15_clash_step_only_adds_prefixed_copies []
    [("fields", Value.obj []), ("level", Value.str "boom")]).2.2.2 "level" (by decide)
    (Value.str "boom") rfl (by decide)

/-- C16, as stated, fails under the default configuration. First input: the attribute
`("fields.level", errors.New("a"))` next to `("level", errors.New("b"))`; the prefixed copy
of `level` overwrites `fields.level`, and the text `a` is at none of the three locations.
Second input: `("a", "x")` visited before `("fields", errors.New("boom"))`; the text of the
error replaces the sub-document and `x` is at none of the three locations. -/
theorem C16_counterexample :
    (buildDocument sampleExt defaultFormatter
        ⟨[("fields.level", Value.err "a"), ("level", Value.err "b")], 0, 0, ""⟩ =
      Except.ok [("fields", Value.obj []), ("fields.level", Value.str "b"),
        ("level", Value.str "panic"), ("timestamp", Value.str "0001-01-01T00:00:00Z"),
        ("message", Value.str "")] ∧
      mapGet [("fields", Value.obj []), ("fields.level", Value.str "b"),
        ("level", Value.str "panic"), ("timestamp", Value.str "0001-01-01T00:00:00Z"),
        ("message", Value.str "")] "fields.level" = some (Value.str "b") ∧
      mapGet [("fields", Value.obj []), ("fields.level", Value.str "b"),
        ("level", Value.str "panic"), ("timestamp", Value.str "0001-01-01T00:00:00Z"),
        ("message", Value.str "")] ("fields." ++ "fields.level") = none ∧
      mapGet ([] : Fields) "fields.level" = none) ∧
    (buildDocument sampleExt defaultFormatter
        ⟨[("a", Value.str "x"), ("fields", Value.err "boom")], 0, 0, ""⟩ =
      Except.ok [("fields", Value.str "boom"),
        ("timestamp", Value.str "0001-01-01T00:00:00Z"), ("message", Value.str ""),
        ("level", Value.str "panic")] ∧
      mapGet [("fields", Value.str "boom"),
        ("timestamp", Value.str "0001-01-01T00:00:00Z"), ("message", Value.str ""),
        ("level", Value.str "panic")] "a" = none ∧
      mapGet [("fields", Value.str "boom"),
        ("timestamp", Value.str "0001-01-01T00:00:00Z"), ("message", Value.str ""),
        ("level", Value.str "panic")] ("fields." ++ "a") = none) :=
  ⟨⟨rfl, rfl, rfl, rfl⟩, rfl, rfl, rfl⟩

/-- C16 (amended): under the default configuration, for every entry (keys unique) with no
error-like attribute named `fields`, the document is built and: each non-error attribute
`(k, v)` is in the `fields` sub-document under `k`; each error-like attribute whose key `k`
is a reserved name has its text at top level under `"fields." ++ k`; each error-like
attribute whose key `k` is not a reserved name has its text at top level under `k`, unless
`k` is `"fields." ++ r` for a reserved name `r` that is itself the key of an error-like
attribute. -/
theorem C16_default_attributes_kept (ext : Externals) (e : Entry)
    (hn : (mapKeys e.Data).Nodup)
    (hne : ∀ kv ∈ e.Data, kv.2.isError = true → kv.1 ≠ "fields") :
    ∃ doc, buildDocument ext defaultFormatter e = Except.ok doc ∧
      (∀ k v, (k, v) ∈ e.Data → v.isError = false →
        ∃ fd, mapGet doc "fields" = some (Value.obj fd) ∧ mapGet fd k = some v) ∧
      (∀ k msg, (k, Value.err msg) ∈ e.Data → k ∈ resolvedNames defaultFormatter →
        mapGet doc ("fields." ++ k) = some (Value.str msg)) ∧
      (∀ k msg, (k, Value.err msg) ∈ e.Data → k ∉ resolvedNames defaultFormatter →
        (∀ r ∈ resolvedNames defaultFormatter, k = "fields." ++ r →
          ∀ m, (r, Value.err m) ∉ e.Data) →
        mapGet doc k = some (Value.str msg)) := by
  have hpre : noPrefixedName (resolvedNames defaultFormatter) := by decide
  have hnf : "fields" ∉ resolvedNames defaultFormatter := by decide
  obtain ⟨data, hp, hfd⟩ := partition_fields e hn hne
  refine ⟨writeReserved ext defaultFormatter e
    (prefixFieldClashes data defaultFormatter.FieldMap), ?_, ?_, ?_, ?_⟩
  · simp only [buildDocument, hp]
  · intro k v hm hv
    refine ⟨nonErrors e.Data, ?_, ?_⟩
    · rw [mapGet_finish_fields ext defaultFormatter e data hnf, hfd]
    · exact mapGet_of_mem_nodup _ k v (nonErrors_nodup e.Data hn)
        ((mem_nonErrors e.Data k v).mpr ⟨hm, hv⟩)
  · intro k msg hm hk
    exact mapGet_finish_prefixed ext defaultFormatter e data k _ hk
      (partitionLoop_err e.Data _ data k msg hp hn hm) (fun r' hr' => hpre k hk r' hr')
      (fun hmem => hpre _ hmem k hk rfl)
  · intro k msg hm hk hfree
    have h := (mem_resolvedNames defaultFormatter k).not.mp hk
    simp only [not_or] at h
    rw [mapGet_writeReserved_frame ext defaultFormatter e _ k (Or.inr h.1) h.2.1 h.2.2,
      prefixFieldClashes_eq_inOrder,
      prefixClashesInOrder_of_absent k (clashOrder defaultFormatter.FieldMap) data hpre ?_]
    · exact partitionLoop_err e.Data _ data k msg hp hn hm
    · intro r hr hkr
      exact mapGet_partition_none e data hp r (fun e' => hnf (e' ▸ hr)) (hfree r hr hkr)

/-- Witness of C16 (amended): a plain attribute, an error-like attribute named like the
LEVEL key and an error-like attribute with a free name. -/
theorem C16_default_attributes_kept_witness :
    (mapKeys (Entry.mk [("user", Value.str "ann"), ("level", Value.err "boom"),
      ("omg", Value.err "wild walrus")] 0 0 "").Data).Nodup ∧
    ∃ doc, buildDocument sampleExt defaultFormatter
        ⟨[("user", Value.str "ann"), ("level", Value.err "boom"),
          ("omg", Value.err "wild walrus")], 0, 0, ""⟩ = Except.ok doc ∧
      (∀ k v, (k, v) ∈ [("user", Value.str "ann"), ("level", Value.err "boom"),
          ("omg", Value.err "wild walrus")] → v.isError = false →
        ∃ fd, mapGet doc "fields" = some (Value.obj fd) ∧ mapGet fd k = some v) ∧
      (∀ k msg, (k, Value.err msg) ∈ [("user", Value.str "ann"),
          ("level", Value.err "boom"), ("omg", Value.err "wild walrus")] →
        k ∈ resolvedNames defaultFormatter →
        mapGet doc ("fields." ++ k) = some (Value.str msg)) ∧
      (∀ k msg, (k, Value.err msg) ∈ [("user", Value.str "ann"),
          ("level", Value.err "boom"), ("omg", Value.err "wild walrus")] →
        k ∉ resolvedNames defaultFormatter →
        (∀ r ∈ resolvedNames defaultFormatter, k = "fields." ++ r →
          ∀ m, (r, Value.err m) ∉ [("user", Value.str "ann"),
            ("level", Value.err "boom"), ("omg", Value.err "wild walrus")]) →
        mapGet doc k = some (Value.str msg)) :=
  ⟨by decide,
    C16_default_attributes_kept sampleExt
      ⟨[("user", Value.str "ann"), ("level", Value.err "boom"),
        ("omg", Value.err "wild walrus")], 0, 0, ""⟩ (by decide) (by decide)⟩

/-- C17: for every configuration and every entry (keys unique) with no error-like attribute
named `fields`, any two traversal orders of the entry's attributes make `Format` build the
same document: both documents are built and every top-level key reads the same in both,
the `fields` sub-document being compared by its members. -/
theorem C17_traversal_order_irrelevant (ext : Externals) (f : ApexUpJSONFormatter)
    (e1 e2 : Entry) (hperm : e1.Data.Perm e2.Data) (ht : e1.Time = e2.Time)
    (hl : e1.Level = e2.Level) (hm : e1.Message = e2.Message)
    (hn : (mapKeys e1.Data).Nodup)
    (hne : ∀ kv ∈ e1.Data, kv.2.isError = true → kv.1 ≠ "fields") :
    ∃ d1 d2, buildDocument ext f e1 = Except.ok d1 ∧ buildDocument ext f e2 = Except.ok d2 ∧
      sameDocument d1 d2 := by
  obtain ⟨p1, p2, hp1, hp2, hsame⟩ := partition_sameDocument e1 e2 hperm hn hne
  refine ⟨writeReserved ext f e1 (prefixFieldClashes p1 f.FieldMap),
    writeReserved ext f e2 (prefixFieldClashes p2 f.FieldMap), ?_, ?_, ?_⟩
  · simp only [buildDocument, hp1]
  · simp only [buildDocument, hp2]
  · exact sameDocument_writeReserved ext f e1 e2 ht hl hm
      (sameDocument_prefixFieldClashes f.FieldMap hsame)

/-- Witness of C17: two attributes, one of them error-like and named like the LEVEL key,
visited in the two possible orders. -/
theorem C17_traversal_order_irrelevant_witness :
    (List.Perm [("user", Value.str "ann"), ("level", Value.err "boom")]
        [("level", Value.err "boom"), ("user", Value.str "ann")] ∧
      (mapKeys [("user", Value.str "ann"), ("level", Value.err "boom")]).Nodup) ∧
    ∃ d1 d2,
      buildDocument sampleExt defaultFormatter
        ⟨[("user", Value.str "ann"), ("level", Value.err "boom")], 0, 0, "hi"⟩ =
        Except.ok d1 ∧
      buildDocument sampleExt defaultFormatter
        ⟨[("level", Value.err "boom"), ("user", Value.str "ann")], 0, 0, "hi"⟩ =
        Except.ok d2 ∧
      sameDocument d1 d2 :=
  ⟨⟨List.Perm.swap _ _ _, by decide⟩,
    C17_traversal_order_irrelevant sampleExt defaultFormatter
      ⟨[("user", Value.str "ann"), ("level", Value.err "boom")], 0, 0, "hi"⟩
      ⟨[("level", Value.err "boom"), ("user", Value.str "ann")], 0, 0, "hi"⟩
      (List.Perm.swap _ _ _) rfl rfl rfl (by decide) (by decide)⟩

/-- C18, as stated, fails: with TIME mapped to `a` and MESSAGE mapped to `fields.a` the
resolved names are pairwise distinct; the entry has no error-like attribute named `fields`
and carries the error-like attribute `("fields.a", errors.New("2"))`, whose key is the
resolved MESSAGE name, while `fields.fields.a` is not a resolved name. The TIME check
overwrites `fields.a` with the text of the attribute `a`, so the document holds `1`, not
`2`, under `fields.fields.a`. -/
theorem C18_counterexample :
    (resolvedNames ⟨"", false, [("timestamp", "a"), ("message", "fields.a")]⟩).Nodup ∧
    "fields.a" ∈ resolvedNames ⟨"", false, [("timestamp", "a"), ("message", "fields.a")]⟩ ∧
    "fields." ++ "fields.a" ∉
      resolvedNames ⟨"", false, [("timestamp", "a"), ("message", "fields.a")]⟩ ∧
    buildDocument sampleExt ⟨"", false, [("timestamp", "a"), ("message", "fields.a")]⟩
        ⟨[("a", Value.err "1"), ("fields.a", Value.err "2")], 0, 0, "hi"⟩ =
      Except.ok [("fields", Value.obj []), ("a", Value.str "0001-01-01T00:00:00Z"),
        ("fields.a", Value.str "hi"), ("fields.fields.a", Value.str "1"),
        ("level", Value.str "panic")] ∧
    mapGet [("fields", Value.obj []), ("a", Value.str "0001-01-01T00:00:00Z"),
        ("fields.a", Value.str "hi"), ("fields.fields.a", Value.str "1"),
        ("level", Value.str "panic")] ("fields." ++ "fields.a") = some (Value.str "1") :=
  ⟨by decide, by decide, by decide, rfl, rfl⟩

/-- C18 (amended): for every configuration whose resolved key names are pairwise distinct
and every entry (keys unique) with no error-like attribute named `fields`: if an error-like
attribute `(r, e)` has a key `r` equal to a resolved reserved name, `r` is not itself
`"fields." ++ r'` for a resolved name `r'`, and `"fields." ++ r` is not a resolved name,
then the document is built and holds the text `e.Error()` at the top level under the key
`"fields." ++ r`. -/
theorem C18_error_named_like_reserved_key_copied (ext : Externals)
    (f : ApexUpJSONFormatter) (e : Entry) (r msg : String)
    (_hd : (resolvedNames f).Nodup) (hn : (mapKeys e.Data).Nodup)
    (hne : ∀ kv ∈ e.Data, kv.2.isError = true → kv.1 ≠ "fields")
    (hm : (r, Value.err msg) ∈ e.Data) (hr : r ∈ resolvedNames f)
    (hpre : ∀ r' ∈ resolvedNames f, r ≠ "fields." ++ r')
    (hnot : "fields." ++ r ∉ resolvedNames f) :
    ∃ doc, buildDocument ext f e = Except.ok doc ∧
      mapGet doc ("fields." ++ r) = some (Value.str msg) := by
  obtain ⟨data, hp, _⟩ := partition_fields e hn hne
  refine ⟨writeReserved ext f e (prefixFieldClashes data f.FieldMap), ?_, ?_⟩
  · simp only [buildDocument, hp]
  · exact mapGet_finish_prefixed ext f e data r _ hr
      (partitionLoop_err e.Data _ data r msg hp hn hm) hpre hnot

/-- Witness of C18 (amended): the default names and an error-like attribute named
`level`. -/
theorem C18_error_named_like_reserved_key_copied_witness :
    ((resolvedNames defaultFormatter).Nodup ∧ "level" ∈ resolvedNames defaultFormatter ∧
      "fields." ++ "level" ∉ resolvedNames defaultFormatter) ∧
    ∃ doc, buildDocument sampleExt defaultFormatter (withField "level" (Value.err "boom")) =
        Except.ok doc ∧
      mapGet doc ("fields." ++ "level") = some (Value.str "boom") :=
  ⟨⟨by decide, by decide, by decide⟩,
    C18_error_named_like_reserved_key_copied sampleExt defaultFormatter
      (withField "level" (Value.err "boom")) "level" "boom" (by decide) (by decide)
      (by decide) (List.mem_cons_self _ _) (by decide) (by decide) (by decide)⟩

/-- C19: for every configuration in which some role resolves to `fields` while
`fields.fields` is not a resolved name, and every entry (keys unique) with no error-like
attribute named `fields`, the document is built and holds the sub-document of the entry's
non-error attributes at top level under the key `fields.fields`. -/
theorem C19_fields_copied_under_fields_fields (ext : Externals) (f : ApexUpJSONFormatter)
    (e : Entry) (hr : "fields" ∈ resolvedNames f) (hnot : "fields.fields" ∉ resolvedNames f)
    (hn : (mapKeys e.Data).Nodup)
    (hne : ∀ kv ∈ e.Data, kv.2.isError = true → kv.1 ≠ "fields") :
    ∃ doc, buildDocument ext f e = Except.ok doc ∧
      mapGet doc "fields.fields" = some (Value.obj (nonErrors e.Data)) ∧
      ∀ k v, mapGet (nonErrors e.Data) k = some v ↔ ((k, v) ∈ e.Data ∧ v.isError = false) := by
  obtain ⟨data, hp, hfd⟩ := partition_fields e hn hne
  have hlit : ("fields." ++ "fields" : String) = "fields.fields" := by decide
  refine ⟨writeReserved ext f e (prefixFieldClashes data f.FieldMap), ?_, ?_, ?_⟩
  · simp only [buildDocument, hp]
  · rw [← hlit]
    exact mapGet_finish_prefixed ext f e data "fields" _ hr hfd
      (fun r' _ => Ne.symm (prefixed_ne_fields r')) (by rw [hlit]; exact hnot)
  · intro k v
    constructor
    · intro h
      exact (mem_nonErrors e.Data k v).mp (mem_of_mapGet _ _ _ h)
    · intro h
      exact mapGet_of_mem_nodup _ k v (nonErrors_nodup e.Data hn)
        ((mem_nonErrors e.Data k v).mpr h)

/-- Witness of C19: the LEVEL role mapped to `fields`, a plain attribute and an error-like
one; `fields.fields` holds the sub-document with the plain attribute. -/
theorem C19_fields_copied_under_fields_fields_witness :
    ("fields" ∈ resolvedNames ⟨"", false, [("level", "fields")]⟩ ∧
      "fields.fields" ∉ resolvedNames ⟨"", false, [("level", "fields")]⟩) ∧
    buildDocument sampleExt ⟨"", false, [("level", "fields")]⟩
        ⟨[("user", Value.str "ann"), ("omg", Value.err "boom")], 0, 0, "hi"⟩ =
      Except.ok [("fields", Value.str "panic"), ("omg", Value.str "boom"),
        ("fields.fields", Value.obj [("user", Value.str "ann")]),
        ("timestamp", Value.str "0001-01-01T00:00:00Z"), ("message", Value.str "hi")] ∧
    ∃ doc, buildDocument sampleExt ⟨"", false, [("level", "fields")]⟩
        ⟨[("user", Value.str "ann"), ("omg", Value.err "boom")], 0, 0, "hi"⟩ =
        Except.ok doc ∧
      mapGet doc "fields.fields" =
        some (Value.obj (nonErrors [("user", Value.str "ann"), ("omg", Value.err "boom")])) ∧
      ∀ k v, mapGet (nonErrors [("user", Value.str "ann"), ("omg", Value.err "boom")]) k =
          some v ↔
        ((k, v) ∈ [("user", Value.str "ann"), ("omg", Value.err "boom")] ∧
          v.isError = false) :=
  ⟨⟨by decide, by decide⟩, rfl,
    C19_fields_copied_under_fields_fields sampleExt ⟨"", false, [("level", "fields")]⟩
      ⟨[("user", Value.str "ann"), ("omg", Value.err "boom")], 0, 0, "hi"⟩
      (by decide) (by decide) (by decide) (by decide)⟩

end Logrus
